import Mathlib

/-!
# Verification of the INAPROC sync & deduplication engine

Shallow embedding of the incremental synchronization and deduplication
core of the dashboard repository:

* `excel-service` (record keys, loading, deduplicating append),
* `drive-config` (`getUniqueKeyFields` static key table),
* the sync route's `fetchWithRetry` and paging loop (both the per-page
  variant and the accumulate-then-bulk-write variant),
* the sync status route's verification pass.

Records are modelled as ordered field lists with scalar JS values
(string, integer numbers, booleans, null); absent fields are simply
absent.  JavaScript truthiness and string coercion are modelled
explicitly, and `JSON.stringify` is modelled character-faithfully on
this value domain (including escape sequences), so that the content-hash
fallback key of the dedup engine can be reasoned about precisely.
-/

/-- A scalar JavaScript value as it appears in a fetched record.
Numbers are modelled as integers (the identifier fields the key table
names are codes; no claim depends on fractional values). -/
inductive JsVal where
  | vStr : String → JsVal
  | vNum : Int → JsVal
  | vBool : Bool → JsVal
  | vNull : JsVal
deriving DecidableEq, Repr

/-- A record: an ordered mapping from field names to scalar values. -/
abbrev JsRecord := List (String × JsVal)

/-- JavaScript property lookup `record[field]` (absent ⇒ `undefined`,
modelled as `none`). -/
def jsLookup (r : JsRecord) (f : String) : Option JsVal :=
  (r.find? (fun kv => kv.1 = f)).map (fun kv => kv.2)

/-- JavaScript truthiness of a value. -/
def jsTruthy : JsVal → Bool
  | .vStr s => s ≠ ""
  | .vNum n => n ≠ 0
  | .vBool b => b
  | .vNull => false

/-- Decimal digit character. -/
def decDigitChar (d : Nat) : Char := Char.ofNat (48 + d)

/-- Decimal rendering of a natural number, as JavaScript prints it. -/
def natChars (n : Nat) : List Char :=
  if n = 0 then ['0'] else ((Nat.digits 10 n).map decDigitChar).reverse

/-- Decimal rendering of an integer, as JavaScript prints it. -/
def intChars (i : Int) : List Char :=
  if i < 0 then '-' :: natChars i.natAbs else natChars i.natAbs

/-- JavaScript `String(v)` coercion on scalar values. -/
def jsString : JsVal → String
  | .vStr s => s
  | .vNum n => ⟨intChars n⟩
  | .vBool b => if b then "true" else "false"
  | .vNull => "null"

/-- One component of a record key: `String(record[field] || '')`
(excel-service).  A falsy value (absent, `null`, `''`, `0`, `false`)
contributes the empty string. -/
def keyComponent (r : JsRecord) (f : String) : String :=
  match jsLookup r f with
  | some v => if jsTruthy v then jsString v else ""
  | none => ""

/-- JavaScript `array.join('|')`. -/
def jsJoinPipe : List String → String
  | [] => ""
  | [s] => s
  | s :: rest => s ++ "|" ++ jsJoinPipe rest

/-- JavaScript `string.split('|')` at the character level: splits at
every pipe, so `"".split` is `[""]` and `"||".split` has three empty
pieces. -/
def splitPipeChars : List Char → List (List Char)
  | [] => [[]]
  | c :: rest =>
    if c = '|' then [] :: splitPipeChars rest
    else
      match splitPipeChars rest with
      | [] => [[c]]
      | h :: t => (c :: h) :: t

/-- JavaScript `string.split('|')`. -/
def jsSplitPipe (s : String) : List String :=
  (splitPipeChars s.data).map String.mk

/-- `generateRecordKey` from excel-service: the pipe-join of the raw
key-field components.  Note that each `field` is looked up literally. -/
def generateRecordKey (r : JsRecord) (keyFields : List String) : String :=
  jsJoinPipe (keyFields.map (keyComponent r))

/-- The static key table of `getUniqueKeyFields` (drive-config).  Entries
written `"a||b"` in the source are kept verbatim: the source stores the
whole composite string as a single field name. -/
def keyMappings : List (String × List String) :=
  [ ("paket-e-purchasing", ["kd_paket", "kode_rup||kd_rup"]),
    ("instansi-satker", ["kode_klpd||kd_klpd", "kode_satker||kd_satker"]),
    ("komoditas-detail", ["id_komoditas", "kode_produk"]),
    ("penyedia-detail", ["kd_penyedia", "npwp"]),
    ("penyedia-distributor-detail", ["kd_penyedia", "kd_distributor"]),
    ("master-satker", ["kode_klpd||kd_klpd", "kode_satker||kd_satker"]),
    ("paket-anggaran-penyedia", ["kode_rup||kd_rup"]),
    ("paket-anggaran-swakelola", ["kode_rup||kd_rup"]),
    ("paket-penyedia-terumumkan", ["kode_rup||kd_rup"]),
    ("paket-swakelola-terumumkan", ["kode_rup||kd_rup"]),
    ("program-master", ["kode_program||kd_program"]),
    ("jadwal-tahapan-non-tender", ["kode_lelang||kd_lelang||kode_rup||kd_rup", "kode_tahap"]),
    ("jadwal-tahapan-tender", ["kode_lelang||kd_lelang||kode_rup||kd_rup", "kode_tahap"]),
    ("non-tender-ekontrak-kontrak", ["kode_lelang||kd_lelang||kode_rup||kd_rup", "kd_kontrak"]),
    ("non-tender-pengumuman", ["kode_lelang||kd_lelang||kode_rup||kd_rup"]),
    ("non-tender-selesai", ["kode_lelang||kd_lelang||kode_rup||kd_rup"]),
    ("pencatatan-non-tender", ["kode_lelang||kd_lelang||kode_rup||kd_rup"]),
    ("pencatatan-non-tender-realisasi", ["kode_lelang||kd_lelang||kode_rup||kd_rup", "id_realisasi"]),
    ("pencatatan-swakelola", ["kode_rup||kd_rup"]),
    ("pencatatan-swakelola-realisasi", ["kode_rup||kd_rup", "id_realisasi"]),
    ("pengumuman", ["kode_lelang||kd_lelang||kode_rup||kd_rup"]),
    ("peserta-tender", ["kode_lelang||kd_lelang||kode_rup||kd_rup", "kd_penyedia"]),
    ("tender-ekontrak-kontrak", ["kode_lelang||kd_lelang||kode_rup||kd_rup", "kd_kontrak"]),
    ("tender-selesai-nilai", ["kode_lelang||kd_lelang||kode_rup||kd_rup"]) ]

/-- JavaScript `string.split('/')` at the character level. -/
def splitSlashChars : List Char → List (List Char)
  | [] => [[]]
  | c :: rest =>
    if c = '/' then [] :: splitSlashChars rest
    else
      match splitSlashChars rest with
      | [] => [[c]]
      | h :: t => (c :: h) :: t

/-- JavaScript `string.split('/')`. -/
def jsSplitSlash (s : String) : List String :=
  (splitSlashChars s.data).map String.mk

/-- The trailing path segment of an endpoint:
`endpoint.split('/')` then the last element. -/
def lastSegment (endpoint : String) : String :=
  (jsSplitSlash endpoint).getLastD ""

/-- `getUniqueKeyFields` from drive-config: static lookup on the
endpoint's trailing path segment, default `["kode_rup"]`. -/
def getUniqueKeyFields (endpoint : String) : List String :=
  match keyMappings.find? (fun kv => kv.1 = lastSegment endpoint) with
  | some kv => kv.2
  | none => ["kode_rup"]

/-! ## JSON.stringify on the modelled record domain -/

/-- Lowercase hexadecimal digit character. -/
def hexDigitChar (d : Nat) : Char :=
  if d < 10 then Char.ofNat (48 + d) else Char.ofNat (87 + d)

/-- The body (after the backslash) of the escape sequence
`JSON.stringify` uses for a character, `none` if the character is
emitted verbatim. -/
def escBody (c : Char) : Option (List Char) :=
  if c = '"' then some ['"']
  else if c = '\\' then some ['\\']
  else if c = '\x08' then some ['b']
  else if c = '\x0c' then some ['f']
  else if c = '\n' then some ['n']
  else if c = '\r' then some ['r']
  else if c = '\t' then some ['t']
  else if c.toNat < 32 then
    some ['u', '0', '0', hexDigitChar (c.toNat / 16), hexDigitChar (c.toNat % 16)]
  else none

/-- The escape of one character inside a JSON string literal, exactly as
`JSON.stringify` produces it. -/
def escapeChar (c : Char) : List Char :=
  match escBody c with
  | some b => '\\' :: b
  | none => [c]

/-- The escaped characters of a string body. -/
def escList (cs : List Char) : List Char :=
  cs.foldr (fun c acc => escapeChar c ++ acc) []

/-- The characters of a JSON string literal (with quotes). -/
def quoteChars (s : String) : List Char :=
  '"' :: escList s.data ++ ['"']

/-- The characters `JSON.stringify` produces for one scalar value. -/
def jsonValChars : JsVal → List Char
  | .vStr s => quoteChars s
  | .vNum n => intChars n
  | .vBool b => if b then "true".data else "false".data
  | .vNull => "null".data

/-- The characters `JSON.stringify` produces for one `"key":value` item. -/
def jsonItemChars (kv : String × JsVal) : List Char :=
  quoteChars kv.1 ++ ':' :: jsonValChars kv.2

/-- The character list `JSON.stringify(record)` produces. -/
def jsonRecordChars (r : JsRecord) : List Char :=
  match r with
  | [] => ['\x7b', '\x7d']
  | kv :: rest =>
    '\x7b' :: (jsonItemChars kv ++
      rest.foldr (fun kv' acc => ',' :: jsonItemChars kv' ++ acc) ['\x7d'])

/-- `JSON.stringify(record)` as a string. -/
def jsonStringify (r : JsRecord) : String := ⟨jsonRecordChars r⟩

/-! ## The dedup merge of `appendToExcel` -/

/-- The effective key the `appendToExcel` loop uses for an incoming
record: `generateRecordKey`, with the content fallback
`` `__row_${JSON.stringify(record)}` `` when the key is empty or all its
pipe-separated components are empty. -/
def effectiveKey (r : JsRecord) (keyFields : List String) : String :=
  let key := generateRecordKey r keyFields
  if key = "" ∨ (jsSplitPipe key).all (fun k => k = "") then
    "__row_" ++ jsonStringify r
  else
    key

/-- Result of the dedup filter loop: the key set at loop exit (JS
`Set<string>`, modelled as a duplicate-free list), the unique records
accumulated (in batch order), and the duplicate count. -/
structure MergeState where
  keys : List String
  uniq : List JsRecord
  dups : Nat
deriving Repr

/-- The dedup filter loop of `appendToExcel`, processing the batch in
order: a record whose effective key is already in the set is counted as
a duplicate and dropped; otherwise it is kept and its key added to the
set. -/
def dedupMerge (existingKeys : List String) (keyFields : List String) :
    List JsRecord → MergeState
  | [] => ⟨existingKeys, [], 0⟩
  | r :: rest =>
    let key := effectiveKey r keyFields
    if key ∈ existingKeys then
      let m := dedupMerge existingKeys keyFields rest
      { m with dups := m.dups + 1 }
    else
      let m := dedupMerge (key :: existingKeys) keyFields rest
      { m with uniq := r :: m.uniq }

/-! ## A decoder for the modelled `JSON.stringify` output

The decoder below is a proof device only: it lets us show that
`jsonStringify` is injective on the modelled record domain, which is
what makes the `__row_` content-fallback key collision-free for records
with differing content. -/

/-- Numeric value of a lowercase hexadecimal digit character. -/
def hexVal (c : Char) : Nat :=
  if 97 ≤ c.toNat then c.toNat - 87 else c.toNat - 48

/-- Numeric value of a decimal digit character. -/
def digitVal (c : Char) : Nat := c.toNat - 48

/-- Decode one escape sequence body (the part after the backslash). -/
def parseEsc : List Char → Option (Char × List Char)
  | '"' :: rest => some ('"', rest)
  | '\\' :: rest => some ('\\', rest)
  | 'b' :: rest => some ('\x08', rest)
  | 'f' :: rest => some ('\x0c', rest)
  | 'n' :: rest => some ('\n', rest)
  | 'r' :: rest => some ('\r', rest)
  | 't' :: rest => some ('\t', rest)
  | 'u' :: a :: b :: c :: d :: rest =>
    some (Char.ofNat ((((hexVal a * 16 + hexVal b) * 16 + hexVal c) * 16 + hexVal d)), rest)
  | _ => none

/-- Decode a JSON string body up to (and consuming) the closing quote. -/
def parseStrBody : Nat → List Char → Option (List Char × List Char)
  | 0, _ => none
  | _ + 1, [] => none
  | fuel + 1, c :: rest =>
    if c = '"' then some ([], rest)
    else if c = '\\' then
      match parseEsc rest with
      | none => none
      | some (ch, rest') =>
        match parseStrBody fuel rest' with
        | none => none
        | some (cs, rest'') => some (ch :: cs, rest'')
    else
      match parseStrBody fuel rest with
      | none => none
      | some (cs, rest') => some (c :: cs, rest')

/-- Decode a run of decimal digits as a natural number. -/
def parseNum (l : List Char) : Option (Nat × List Char) :=
  let digs := l.takeWhile Char.isDigit
  if digs = [] then none
  else some (Nat.ofDigits 10 ((digs.map digitVal).reverse), l.dropWhile Char.isDigit)

/-- Drop an expected literal from the front of the input. -/
def dropLit : List Char → List Char → Option (List Char)
  | [], l => some l
  | _ :: _, [] => none
  | c :: cs, x :: xs => if x = c then dropLit cs xs else none

/-- Decode one scalar JSON value. -/
def parseVal (fuel : Nat) : List Char → Option (JsVal × List Char)
  | [] => none
  | ch :: rest =>
    if ch = '"' then
      match parseStrBody fuel rest with
      | none => none
      | some (cs, rest') => some (.vStr ⟨cs⟩, rest')
    else if ch = '-' then
      match parseNum rest with
      | none => none
      | some (n, rest') => some (.vNum (-(n : Int)), rest')
    else
      match dropLit "true".data (ch :: rest) with
      | some r => some (.vBool true, r)
      | none =>
        match dropLit "false".data (ch :: rest) with
        | some r => some (.vBool false, r)
        | none =>
          match dropLit "null".data (ch :: rest) with
          | some r => some (.vNull, r)
          | none =>
            match parseNum (ch :: rest) with
            | none => none
            | some (n, rest') => some (.vNum (n : Int), rest')

/-- Decode one `"key":value` item. -/
def parseItem (fuel : Nat) : List Char → Option ((String × JsVal) × List Char)
  | [] => none
  | ch :: rest =>
    if ch = '"' then
      match parseStrBody fuel rest with
      | none => none
      | some (k, rest') =>
        match rest' with
        | ':' :: rest'' =>
          match parseVal fuel rest'' with
          | none => none
          | some (v, rest''') => some ((⟨k⟩, v), rest''')
        | _ => none
    else none

/-- Decode a non-empty item sequence terminated by a closing brace. -/
def parseItems : Nat → List Char → Option (JsRecord × List Char)
  | 0, _ => none
  | fuel + 1, l =>
    match parseItem fuel l with
    | none => none
    | some (kv, rest) =>
      match rest with
      | ',' :: rest' =>
        match parseItems fuel rest' with
        | none => none
        | some (r, rest'') => some (kv :: r, rest'')
      | '\x7d' :: rest' => some ([kv], rest')
      | _ => none

/-- Decode a whole stringified record (which must end the input). -/
def parseRecord (fuel : Nat) : List Char → Option (JsRecord × List Char)
  | '\x7b' :: rest =>
    if rest = ['\x7d'] then some ([], [])
    else parseItems fuel rest
  | _ => none

/-- The item-separator tail of a stringified record: what follows the
first item's characters. -/
def itemsTail : JsRecord → List Char
  | [] => ['\x7d']
  | kv :: t => ',' :: jsonItemChars kv ++ itemsTail t

/-- Length of the string payload of a value (`0` for non-strings); used
only to size the decoding fuel. -/
def strLenV : JsVal → Nat
  | .vStr s => s.length
  | _ => 0

/-- Fuel bound for decoding one item. -/
def itemBound (kv : String × JsVal) : Nat := max kv.1.length (strLenV kv.2)

/-- Fuel bound for decoding a whole record. -/
def recBound (r : JsRecord) : Nat :=
  r.length + 1 + (r.map itemBound).foldr max 0

/-! ## The Tabular (Excel) Store model

The on-disk workbook is abstracted to its logical content: the ordered
record list of the data sheet, plus the `_metadata` sheet.  File paths
and timestamps are not modelled (no claim mentions them). -/

/-- The `_metadata` sheet row `appendToExcel` writes. -/
structure ExcelMeta where
  endpoint : String
  year : String
  keyFields : List String
  totalRecords : Nat
deriving Repr, DecidableEq

/-- The logical content of one stored workbook. -/
structure ExcelFile where
  records : List JsRecord
  meta : ExcelMeta
deriving Repr, DecidableEq

/-- Result record of `loadExistingRecords`. -/
structure LoadResult where
  records : List JsRecord
  keys : List String
  keyFields : List String
deriving Repr

/-- `loadExistingRecords`: a missing file yields empty data; otherwise
the records are returned together with a key set rebuilt by
`generateRecordKey` over the metadata's key fields.  Note the rebuild
applies no `__row_` content fallback. -/
def loadExistingRecords (file : Option ExcelFile) : LoadResult :=
  match file with
  | none => ⟨[], [], []⟩
  | some f =>
    ⟨f.records,
     f.records.foldl (fun ks r => List.insert (generateRecordKey r f.meta.keyFields) ks) [],
     f.meta.keyFields⟩

/-- Result record of `appendToExcel` (the `filePath` field is omitted:
it is a pure function of endpoint and year). -/
structure ExcelOperationResult where
  success : Bool
  newRecords : Nat
  duplicatesSkipped : Nat
  totalRecords : Nat
  error : Option String
deriving Repr, DecidableEq

/-- `appendToExcel` on the abstract store: load, dedup-merge the batch,
rewrite the whole workbook with fresh metadata. -/
def appendToExcel (endpoint year : String) (file : Option ExcelFile)
    (newData : List JsRecord) : ExcelFile × ExcelOperationResult :=
  let keyFields := getUniqueKeyFields endpoint
  let loaded := loadExistingRecords file
  let m := dedupMerge loaded.keys keyFields newData
  let allRecords := loaded.records ++ m.uniq
  (⟨allRecords, ⟨endpoint, year, keyFields, allRecords.length⟩⟩,
   ⟨true, m.uniq.length, m.dups, allRecords.length, none⟩)

/-- Result of `getFileInfo` (size omitted). -/
structure FileInfo where
  fileExists : Bool
  recordCount : Nat
deriving Repr, DecidableEq

/-- `getFileInfo`: existence plus the reloaded record count. -/
def getFileInfo (file : Option ExcelFile) : FileInfo :=
  match file with
  | none => ⟨false, 0⟩
  | some f => ⟨true, f.records.length⟩

/-! ## Sync state model -/

/-- Per-(endpoint, year) sync state (`lastSyncDate` and `filePath`
omitted: wall-clock time and paths play no role in any claim). -/
structure EndpointSyncState where
  lastCursor : Option String
  totalRecords : Nat
deriving Repr, DecidableEq

/-- JavaScript truthiness of an optional string (an absent value and
the empty string are both falsy). -/
def optStrTruthy : Option String → Bool
  | some s => s ≠ ""
  | none => false

/-- The world one sync invocation operates on: the workbook and the
sync-state entry of its (endpoint, year) unit. -/
structure SyncWorld where
  file : Option ExcelFile
  state : Option EndpointSyncState
deriving Repr, DecidableEq

/-! ## The resilient fetch client (`fetchWithRetry`) -/

/-- `RETRY_CONFIG` from the sync route. -/
structure RetryConfig where
  maxRetries : Nat
  initialDelay : Nat
  maxDelay : Nat
  timeout : Nat
deriving Repr, DecidableEq

def RETRY_CONFIG : RetryConfig :=
  { maxRetries := 3, initialDelay := 1000, maxDelay := 10000, timeout := 30000 }

/-- What one underlying `fetch` call produced: an HTTP response with a
status code, or a transport-level exception (timeout abort, connection
reset). -/
inductive HttpAttempt where
  | status (code : Nat)
  | transport (msg : String)
deriving Repr, DecidableEq

/-- Outcome of `fetchWithRetry`: a returned response or a propagated
exception. -/
inductive FetchOutcome where
  | resp (code : Nat)
  | thrown (msg : String)
deriving Repr, DecidableEq

/-- `res.ok`: status in the 200-299 range. -/
def resIsOk (code : Nat) : Bool := 200 ≤ code && code < 300

/-- The immediate-return test of `fetchWithRetry`:
`res.ok || res.status === 400 || res.status === 401 || res.status === 404`. -/
def isTerminalStatus (code : Nat) : Bool :=
  resIsOk code || code == 400 || code == 401 || code == 404

/-- The retriable status list `[429, 500, 502, 503, 504]`. -/
def retriableStatus (code : Nat) : Bool :=
  code == 429 || code == 500 || code == 502 || code == 503 || code == 504

/-- The backoff delay before retry number `retryCount + 1`:
`min(initialDelay * 2^retryCount, maxDelay)`. -/
def backoffDelay (retryCount : Nat) : Nat :=
  min (RETRY_CONFIG.initialDelay * 2 ^ retryCount) RETRY_CONFIG.maxDelay

/-- `fetchWithRetry`, driven by an oracle giving the outcome of the
`n`-th underlying attempt.  The fuel argument is
`maxRetries - retryCount`: when it reaches zero the catch block
rethrows.  Returns the outcome and the list of backoff delays slept. -/
def fetchWithRetryAux (oracle : Nat → HttpAttempt) :
    Nat → Nat → FetchOutcome × List Nat
  | 0, rc =>
    match oracle rc with
    | .transport m => (.thrown m, [])
    | .status code =>
      if isTerminalStatus code then (.resp code, [])
      else if retriableStatus code then
        (.thrown ("Retriable error: " ++ toString code), [])
      else (.resp code, [])
  | fuel + 1, rc =>
    match oracle rc with
    | .transport _ =>
      let r := fetchWithRetryAux oracle fuel (rc + 1)
      (r.1, backoffDelay rc :: r.2)
    | .status code =>
      if isTerminalStatus code then (.resp code, [])
      else if retriableStatus code then
        let r := fetchWithRetryAux oracle fuel (rc + 1)
        (r.1, backoffDelay rc :: r.2)
      else (.resp code, [])

/-- `fetchWithRetry` called at `retryCount = 0`. -/
def fetchWithRetry (oracle : Nat → HttpAttempt) : FetchOutcome × List Nat :=
  fetchWithRetryAux oracle RETRY_CONFIG.maxRetries 0

/-! ## The two sync orchestrators

The repository carries two variants of the sync route's paging loop:
the per-page-commit variant (`src/app/api/sync/route.ts`) and the
accumulate-then-bulk-write variant (the extended route file).  Both are
modelled; remote responses are supplied by an oracle indexed by the
page number within the invocation, and workbook-write failures by an
error oracle (`none` = the write succeeds). -/

/-- A remote API response body: a bare array (legacy) or an enveloped
object carrying `data`, an optional `cursor` and optional `has_more`. -/
inductive ApiResponse where
  | arr (data : List JsRecord)
  | envl (data : List JsRecord) (cursor : Option String) (has_more : Option Bool)
deriving Repr, DecidableEq

/-- What one page fetch produced, after `fetchWithRetry` and the
`!res.ok` check: a parsed body, or a thrown error. -/
inductive FetchResult where
  | ok (resp : ApiResponse)
  | fail (msg : String)
deriving Repr, DecidableEq

/-- Events observed during one invocation, used to state the order
between durable writes and sync-state updates. -/
inductive SyncEvent where
  | writeOk (total : Nat)
  | writeFail
  | stateUpd (cursor : Option String) (total : Nat)
deriving Repr, DecidableEq

/-- The structured result a sync invocation returns to the caller.
`success` and `error` model the JSON payload; on the bulk variant's
outer-catch path only those two fields are present in the real payload
and the remaining fields are defaulted here. -/
structure SyncResult where
  success : Bool
  newRecords : Nat
  duplicatesSkipped : Nat
  totalRecords : Nat
  isComplete : Bool
  error : Option String
  verificationStatus : String
deriving Repr, DecidableEq

/-- A finished invocation: final world, response, event trace, and the
number of page fetches issued. -/
structure SyncRun where
  world : SyncWorld
  result : SyncResult
  trace : List SyncEvent
  fetchCalls : Nat
deriving Repr

/-- `result.data || []` as the per-page variant reads it (a bare array
has no `data` field). -/
def dataV1 : ApiResponse → List JsRecord
  | .arr _ => []
  | .envl data _ _ => data

/-- `result.cursor || (result.meta && result.meta.cursor)` collapsed to
one optional cursor, with a falsy (empty) cursor normalized away. -/
def cursorOf : ApiResponse → Option String
  | .arr _ => none
  | .envl _ c _ => if optStrTruthy c then c else none

/-- `result.has_more` as read from the body. -/
def hasMoreOf : ApiResponse → Option Bool
  | .arr _ => none
  | .envl _ _ h => h

/-- The bulk variant's response normalization: a bare array is all the
data with no further pages; an envelope's `hasMoreData` is
`!!nextCursor && result.has_more !== false`. -/
def normalizeV2 (resp : ApiResponse) : List JsRecord × Option String × Bool :=
  match resp with
  | .arr data => (data, none, false)
  | .envl data _ _ =>
    let nextCursor := cursorOf resp
    (data, nextCursor, nextCursor.isSome && hasMoreOf resp ≠ some false)

/-- The resume decision both variants share: continue from the stored
cursor only when the file exists and the state holds a truthy cursor. -/
def resumeCursor (w : SyncWorld) : Option String :=
  if (getFileInfo w.file).fileExists
      && optStrTruthy (w.state.bind (fun st => st.lastCursor)) then
    w.state.bind (fun st => st.lastCursor)
  else
    none

/-- The post-loop tail of the per-page variant: final file info, the
late verification check (`maxPages` exhaustion with `isComplete`), and
the response record. -/
def v1Post (w : SyncWorld) (newRec dups : Nat) (isComplete : Bool)
    (verification : String) (tr : List SyncEvent) (calls : Nat) : SyncRun :=
  let fi := getFileInfo w.file
  let ver :=
    if verification = "unchecked" && isComplete then
      match w.state with
      | some st => if st.totalRecords = fi.recordCount then "verified" else "mismatch"
      | none => "mismatch"
    else verification
  ⟨w, ⟨true, newRec, dups, fi.recordCount, isComplete, none, ver⟩, tr, calls⟩

/-- The paging loop of the per-page variant
(`src/app/api/sync/route.ts`): fetch a page, append it to the workbook
with deduplication, update the sync state, and continue while a truthy
cursor with `has_more !== false` remains.  A fetch or write error
returns the partial result with the error surfaced.  The first fuel
argument is `maxPages - pagesFetched`. -/
def syncLoopV1 (endpoint year : String) (fetch : Nat → FetchResult)
    (writeErr : Nat → Option String) :
    Nat → Nat → Option String → SyncWorld → Nat → Nat → List SyncEvent → SyncRun
  | 0, p, _cur, w, newRec, dups, tr =>
    v1Post w newRec dups false "unchecked" tr p
  | fuel + 1, p, _cur, w, newRec, dups, tr =>
    match fetch p with
    | .fail m =>
      ⟨w, ⟨true, newRec, dups, (getFileInfo w.file).recordCount, false,
           some ("Sync interrupted: " ++ m), "unchecked"⟩, tr, p + 1⟩
    | .ok resp =>
      let pageData := dataV1 resp
      if pageData.length = 0 then
        v1Post w newRec dups true "unchecked" tr (p + 1)
      else
        match writeErr p with
        | some m =>
          let msg := if m ≠ "" then m else "Failed to append to Excel"
          ⟨w, ⟨true, newRec, dups, (getFileInfo w.file).recordCount, false,
               some ("Sync interrupted: " ++ msg), "unchecked"⟩,
           tr ++ [.writeFail], p + 1⟩
        | none =>
          let (file', res) := appendToExcel endpoint year w.file pageData
          let nextCursor := cursorOf resp
          let newState : EndpointSyncState := ⟨nextCursor, res.totalRecords⟩
          let w' : SyncWorld := ⟨some file', some newState⟩
          let tr' := tr ++ [.writeOk res.totalRecords, .stateUpd nextCursor res.totalRecords]
          let newRec' := newRec + res.newRecords
          let dups' := dups + res.duplicatesSkipped
          if nextCursor = none || hasMoreOf resp = some false then
            let fi := getFileInfo w'.file
            let ver := if fi.recordCount = newState.totalRecords then "verified" else "mismatch"
            v1Post w' newRec' dups' true ver tr' (p + 1)
          else
            syncLoopV1 endpoint year fetch writeErr fuel (p + 1) nextCursor w' newRec' dups' tr'

/-- One invocation of the per-page variant. -/
def syncV1 (endpoint year : String) (maxPages : Nat) (fetch : Nat → FetchResult)
    (writeErr : Nat → Option String) (w : SyncWorld) : SyncRun :=
  syncLoopV1 endpoint year fetch writeErr maxPages 0 (resumeCursor w) w 0 0 []

/-- Output of the bulk variant's paging loop. -/
structure V2LoopOut where
  accumulated : List JsRecord
  finalCursor : Option String
  isComplete : Bool
  fetchCalls : Nat
  fetchErrored : Bool
deriving Repr

/-- The paging loop of the bulk variant (extended route file): fetch and
accumulate pages; an empty page breaks, marking complete only when
nothing at all was fetched in this invocation; a fetch error breaks
silently.  The first fuel argument is `maxPages - pagesFetched`. -/
def syncLoopV2 (fetch : Nat → FetchResult) :
    Nat → Nat → Option String → List JsRecord → Option String → V2LoopOut
  | 0, p, _cur, acc, finalCursor => ⟨acc, finalCursor, false, p, false⟩
  | fuel + 1, p, _cur, acc, finalCursor =>
    match fetch p with
    | .fail _ => ⟨acc, finalCursor, false, p + 1, true⟩
    | .ok resp =>
      let (pageData, nextCursor, hasMoreData) := normalizeV2 resp
      if pageData.length = 0 then
        ⟨acc, finalCursor, p = 0 && acc.length = 0, p + 1, false⟩
      else
        let acc' := acc ++ pageData
        if hasMoreData then
          syncLoopV2 fetch fuel (p + 1) nextCursor acc' nextCursor
        else
          ⟨acc', nextCursor, true, p + 1, false⟩

/-- One invocation of the bulk variant: run the loop, then bulk-write
the accumulated data once, update the sync state only after the write
succeeds, and verify when complete.  A failing bulk write escapes to
the outer catch, whose payload carries only `success: false` and the
error. -/
def syncV2 (endpoint year : String) (maxPages : Nat) (fetch : Nat → FetchResult)
    (writeErr : Option String) (w : SyncWorld) : SyncRun :=
  let lo := syncLoopV2 fetch maxPages 0 (resumeCursor w) [] (resumeCursor w)
  if lo.accumulated.length ≠ 0 then
    match writeErr with
    | some m =>
      ⟨w, ⟨false, 0, 0, 0, false, some (if m ≠ "" then m else "Failed to append to Excel"),
           "unchecked"⟩, [.writeFail], lo.fetchCalls⟩
    | none =>
      let (file', res) := appendToExcel endpoint year w.file lo.accumulated
      let newState : EndpointSyncState := ⟨lo.finalCursor, res.totalRecords⟩
      let w' : SyncWorld := ⟨some file', some newState⟩
      let tr := [SyncEvent.writeOk res.totalRecords,
                 SyncEvent.stateUpd lo.finalCursor res.totalRecords]
      let verification :=
        if lo.isComplete then
          if (getFileInfo w'.file).recordCount = newState.totalRecords then "verified"
          else "mismatch"
        else "unchecked"
      let fi := getFileInfo w'.file
      let ver :=
        if verification = "unchecked" && lo.isComplete then
          match w'.state with
          | some st => if st.totalRecords = fi.recordCount then "verified" else "mismatch"
          | none => "mismatch"
        else verification
      ⟨w', ⟨true, res.newRecords, res.duplicatesSkipped, fi.recordCount, lo.isComplete,
            none, ver⟩, tr, lo.fetchCalls⟩
  else
    let fi := getFileInfo w.file
    let ver :=
      if lo.isComplete then
        match w.state with
        | some st => if st.totalRecords = fi.recordCount then "verified" else "mismatch"
        | none => "mismatch"
      else "unchecked"
    ⟨w, ⟨true, 0, 0, fi.recordCount, lo.isComplete, none, ver⟩, [], lo.fetchCalls⟩

/-! ## The status route's verification pass -/

/-- A returned per-year status entry. -/
structure YearStatus where
  year : String
  stateEntry : EndpointSyncState
  fileExists : Bool
deriving Repr, DecidableEq

/-- Verification of one stored (endpoint, year) entry, as in the status
route's list-all path: with `verify` on, a state claiming records whose
backing file is missing is reset (`none`, the caller omits it);
otherwise the entry is returned with `totalRecords` replaced by the
file's actual count when the file exists. -/
def verifyYear (verifyFiles : Bool) (fi : FileInfo) (y : String)
    (st : EndpointSyncState) : Option YearStatus :=
  if verifyFiles && st.totalRecords ≠ 0 && !fi.fileExists then none
  else some ⟨y, { st with totalRecords := if fi.fileExists then fi.recordCount else 0 },
             fi.fileExists⟩

/-- Status report for one endpoint: the surviving year entries and the
list of years whose state was reset. -/
def statusForEndpoint (verifyFiles : Bool) (fileOf : String → Option ExcelFile)
    (entries : List (String × EndpointSyncState)) : List YearStatus × List String :=
  let processed := entries.map (fun e =>
    (e.1, verifyYear verifyFiles (getFileInfo (fileOf e.1)) e.1 e.2))
  (processed.filterMap (fun e => e.2),
   (processed.filter (fun e => e.2.isNone)).map (fun e => e.1))

/-! ## The spec's reading of the key table (for comparison)

Modelled from the spec: the Key Resolver is described as resolving each
key component as an ordered fallback chain of candidate field names
(the `a||b` entries of the static table), the first candidate with a
non-empty value winning.  This definition follows the spec's words so
the behaviour of the code's `generateRecordKey` can be compared with
it. -/

/-- JavaScript `string.split('||')` at the character level. -/
def splitDblPipeChars : List Char → List (List Char)
  | [] => [[]]
  | '|' :: '|' :: rest => [] :: splitDblPipeChars rest
  | c :: rest =>
    match splitDblPipeChars rest with
    | [] => [[c]]
    | h :: t => (c :: h) :: t

/-- JavaScript `string.split('||')`. -/
def jsSplitDblPipe (s : String) : List String :=
  (splitDblPipeChars s.data).map String.mk

/-- One component under the spec's fallback-chain reading. -/
def specChainComponent (r : JsRecord) (field : String) : String :=
  match (jsSplitDblPipe field).find? (fun f => keyComponent r f ≠ "") with
  | some f => keyComponent r f
  | none => ""

/-- The record key under the spec's fallback-chain reading. -/
def specResolveKey (r : JsRecord) (keyFields : List String) : String :=
  String.intercalate "|" (keyFields.map (specChainComponent r))

/-! ## Observation helpers used by the theorems -/

/-- An attempt outcome the retry logic classifies as retriable. -/
def retriableAttempt : HttpAttempt → Bool
  | .transport _ => true
  | .status code => retriableStatus code

/-- The message of the exception thrown for a failed attempt. -/
def attemptErrMsg : HttpAttempt → String
  | .transport m => m
  | .status code => "Retriable error: " ++ toString code

/-- The body of a successful page fetch (an empty bare array stands in
for the unreachable failure case). -/
def respOf : FetchResult → ApiResponse
  | .ok resp => resp
  | .fail _ => .arr []

/-- A page on which the per-page loop continues past it: the fetch
succeeded with nonempty `data`, a truthy cursor, and `has_more` not
`false`. -/
def goodV1 : FetchResult → Bool
  | .ok resp => (dataV1 resp).length != 0 && (cursorOf resp).isSome &&
      !(hasMoreOf resp == some false)
  | .fail _ => false

/-- A page on which the bulk loop continues past it: the fetch
succeeded with nonempty normalized data and `hasMoreData`. -/
def goodV2 : FetchResult → Bool
  | .ok resp => (normalizeV2 resp).1.length != 0 && (normalizeV2 resp).2.2
  | .fail _ => false

/-- One committed page of the per-page variant: the workbook is
appended to and the sync state replaced with the page's cursor and the
new total. -/
def v1StepW (endpoint year : String) (resp : ApiResponse) (w : SyncWorld) : SyncWorld :=
  ⟨some (appendToExcel endpoint year w.file (dataV1 resp)).1,
   some ⟨cursorOf resp, (appendToExcel endpoint year w.file (dataV1 resp)).2.totalRecords⟩⟩

/-- The world after the per-page variant has committed pages
`p, p+1, …, p+k-1`. -/
def v1Iter (endpoint year : String) (fetch : Nat → FetchResult) :
    Nat → Nat → SyncWorld → SyncWorld
  | 0, _, w => w
  | k + 1, p, w =>
    v1Iter endpoint year fetch k (p + 1) (v1StepW endpoint year (respOf (fetch p)) w)

/-- The records of pages `p, …, p+k-1` in fetch order. -/
def v2Acc (fetch : Nat → FetchResult) : Nat → Nat → List JsRecord
  | _, 0 => []
  | p, k + 1 => (normalizeV2 (respOf (fetch p))).1 ++ v2Acc fetch (p + 1) k

/-- The loop's `finalCursor` after pages `p, …, p+k-1` (the initial
value when no page was consumed). -/
def v2Cur (fetch : Nat → FetchResult) (p : Nat) : Nat → Option String → Option String
  | 0, fc => fc
  | k + 1, _ => (normalizeV2 (respOf (fetch (p + k)))).2.1

/-- Every sync-state update in a trace immediately follows a successful
write of the same total: the temporal reading of "the state update
never precedes the durable write". -/
def updFollowsWrite : List SyncEvent → Bool
  | [] => true
  | .stateUpd _ _ :: _ => false
  | .writeOk t :: .stateUpd _ t' :: rest => t == t' && updFollowsWrite rest
  | _ :: rest => updFollowsWrite rest

/-- The shapes of event traces an invocation can produce: a sequence of
failed writes and write-then-update pairs. -/
inductive TraceBlocks : List SyncEvent → Prop where
  | nil : TraceBlocks []
  | fail (rest : List SyncEvent) : TraceBlocks rest →
      TraceBlocks (SyncEvent.writeFail :: rest)
  | okUpd (t : Nat) (c : Option String) (rest : List SyncEvent) : TraceBlocks rest →
      TraceBlocks (SyncEvent.writeOk t :: SyncEvent.stateUpd c t :: rest)

/-- JavaScript truthiness of a property-lookup result (an absent
property is falsy). -/
def jsTruthyOpt : Option JsVal → Bool
  | some v => jsTruthy v
  | none => false

/-! # Theorems -/

/-! ## Dedup merge lemmas -/

theorem dedupMerge_length (kf : List String) :
    ∀ (batch : List JsRecord) (S : List String),
      (dedupMerge S kf batch).uniq.length + (dedupMerge S kf batch).dups = batch.length := by
  intro batch
  induction batch with
  | nil => intro S; simp [dedupMerge]
  | cons r rest ih =>
    intro S
    simp only [dedupMerge]
    by_cases h : effectiveKey r kf ∈ S
    · simp only [if_pos h]
      have := ih S
      simp only [List.length_cons]
      omega
    · simp only [if_neg h]
      have := ih (effectiveKey r kf :: S)
      simp only [List.length_cons]
      omega

theorem dedupMerge_sublist (kf : List String) :
    ∀ (batch : List JsRecord) (S : List String),
      (dedupMerge S kf batch).uniq.Sublist batch := by
  intro batch
  induction batch with
  | nil => intro S; simp [dedupMerge]
  | cons r rest ih =>
    intro S
    simp only [dedupMerge]
    by_cases h : effectiveKey r kf ∈ S
    · simp only [if_pos h]
      exact (ih S).cons r
    · simp only [if_neg h]
      exact (ih (effectiveKey r kf :: S)).cons₂ r

theorem dedupMerge_keys_eq (kf : List String) :
    ∀ (batch : List JsRecord) (S : List String),
      (dedupMerge S kf batch).keys =
        ((dedupMerge S kf batch).uniq.map (fun r => effectiveKey r kf)).reverse ++ S := by
  intro batch
  induction batch with
  | nil => intro S; simp [dedupMerge]
  | cons r rest ih =>
    intro S
    simp only [dedupMerge]
    by_cases h : effectiveKey r kf ∈ S
    · simpa only [if_pos h] using ih S
    · simp only [if_neg h, List.map_cons, List.reverse_cons, List.append_assoc,
        List.singleton_append]
      exact ih (effectiveKey r kf :: S)

theorem dedupMerge_nodupKeys (kf : List String) :
    ∀ (batch : List JsRecord) (S : List String),
      ((dedupMerge S kf batch).uniq.map (fun r => effectiveKey r kf)).Nodup ∧
      ∀ k ∈ (dedupMerge S kf batch).uniq.map (fun r => effectiveKey r kf), k ∉ S := by
  intro batch
  induction batch with
  | nil => intro S; simp [dedupMerge]
  | cons r rest ih =>
    intro S
    simp only [dedupMerge]
    by_cases h : effectiveKey r kf ∈ S
    · simpa only [if_pos h] using ih S
    · simp only [if_neg h, List.map_cons, List.nodup_cons, List.mem_cons]
      obtain ⟨ihn, ihd⟩ := ih (effectiveKey r kf :: S)
      refine ⟨⟨fun hmem => ?_, ihn⟩, ?_⟩
      · exact ihd _ hmem (List.mem_cons_self _ _)
      · rintro k (rfl | hk)
        · exact h
        · intro hkS
          exact ihd k hk (List.mem_cons_of_mem _ hkS)

theorem dedupMerge_mem_keys (kf : List String) :
    ∀ (batch : List JsRecord) (S : List String),
      (∀ k ∈ S, k ∈ (dedupMerge S kf batch).keys) ∧
      (∀ r ∈ batch, effectiveKey r kf ∈ (dedupMerge S kf batch).keys) := by
  intro batch
  induction batch with
  | nil => intro S; simp [dedupMerge]
  | cons r rest ih =>
    intro S
    simp only [dedupMerge]
    by_cases h : effectiveKey r kf ∈ S
    · simp only [if_pos h]
      obtain ⟨mono, mem⟩ := ih S
      refine ⟨mono, ?_⟩
      intro q hq
      rcases List.mem_cons.mp hq with heq | hq'
      · subst heq; exact mono _ h
      · exact mem q hq'
    · simp only [if_neg h]
      obtain ⟨mono, mem⟩ := ih (effectiveKey r kf :: S)
      refine ⟨fun k hk => mono _ (List.mem_cons_of_mem _ hk), ?_⟩
      intro q hq
      rcases List.mem_cons.mp hq with heq | hq'
      · subst heq; exact mono _ (List.mem_cons_self _ _)
      · exact mem q hq'

theorem dedupMerge_first_wins (kf : List String) :
    ∀ (pre : List JsRecord) (r : JsRecord) (post : List JsRecord) (S : List String),
      effectiveKey r kf ∉ S →
      (∀ q ∈ pre, effectiveKey q kf ≠ effectiveKey r kf) →
      r ∈ (dedupMerge S kf (pre ++ r :: post)).uniq := by
  intro pre
  induction pre with
  | nil =>
    intro r post S hS _
    simp only [List.nil_append, dedupMerge, if_neg hS]
    exact List.mem_cons_self _ _
  | cons q pre' ih =>
    intro r post S hS hpre
    simp only [List.cons_append, dedupMerge]
    by_cases h : effectiveKey q kf ∈ S
    · simp only [if_pos h]
      exact ih r post S hS (fun x hx => hpre x (List.mem_cons_of_mem _ hx))
    · simp only [if_neg h]
      refine List.mem_cons_of_mem _ (ih r post _ ?_ (fun x hx => hpre x (List.mem_cons_of_mem _ hx)))
      intro hmem
      rcases List.mem_cons.mp hmem with heq | hmem'
      · exact hpre q (List.mem_cons_self _ _) heq.symm
      · exact hS hmem'

/-! ## Key emptiness and the content fallback -/

theorem data_append (s t : String) : (s ++ t).data = s.data ++ t.data := rfl

theorem jsJoinPipe_all_empty :
    ∀ (l : List String), (∀ s ∈ l, s = "") →
      (jsJoinPipe l).data.all (fun c => c = '|') = true := by
  intro l
  induction l with
  | nil => intro _; rfl
  | cons s rest ih =>
    intro h
    match rest with
    | [] =>
      have hs : s = "" := h s (List.mem_cons_self _ _)
      subst hs; rfl
    | s2 :: t =>
      have hs : s = "" := h s (List.mem_cons_self _ _)
      subst hs
      show ((("" ++ "|") ++ jsJoinPipe (s2 :: t)).data.all (fun c => c = '|')) = true
      rw [data_append, List.all_append]
      have := ih (fun x hx => h x (List.mem_cons_of_mem _ hx))
      simp only [this, Bool.and_true]
      rfl

theorem splitPipeChars_all_pipes :
    ∀ (cs : List Char), cs.all (fun c => c = '|') = true →
      ∀ piece ∈ splitPipeChars cs, piece = [] := by
  intro cs
  induction cs with
  | nil =>
    intro _ piece hp
    simp only [splitPipeChars, List.mem_singleton] at hp
    exact hp
  | cons c rest ih =>
    intro h piece hp
    simp only [List.all_cons, Bool.and_eq_true, decide_eq_true_eq] at h
    obtain ⟨hc, hrest⟩ := h
    simp only [splitPipeChars, if_pos hc] at hp
    rcases List.mem_cons.mp hp with heq | hp'
    · exact heq
    · exact ih hrest piece hp'

/-- A record whose key components are all empty gets the `__row_`
content-fallback key. -/
theorem effectiveKey_fallback (r : JsRecord) (kf : List String)
    (h : ∀ f ∈ kf, keyComponent r f = "") :
    effectiveKey r kf = "__row_" ++ jsonStringify r := by
  have hcomps : ∀ s ∈ kf.map (keyComponent r), s = "" := by
    intro s hs
    rcases List.mem_map.mp hs with ⟨f, hf, rfl⟩
    exact h f hf
  have hpipes := jsJoinPipe_all_empty _ hcomps
  have hall : (jsSplitPipe (generateRecordKey r kf)).all (fun k => k = "") = true := by
    simp only [jsSplitPipe, List.all_eq_true, List.mem_map]
    rintro s ⟨piece, hpiece, rfl⟩
    have := splitPipeChars_all_pipes _ hpipes piece hpiece
    simp only [this, decide_eq_true_eq]
  simp only [effectiveKey, generateRecordKey] at *
  rw [if_pos (Or.inr hall)]

/-- A record whose key survives the emptiness test keeps its
`generateRecordKey` as effective key. -/
theorem effectiveKey_of_nonempty (r : JsRecord) (kf : List String)
    (h : ¬(generateRecordKey r kf = "" ∨
          (jsSplitPipe (generateRecordKey r kf)).all (fun k => k = ""))) :
    effectiveKey r kf = generateRecordKey r kf := by
  simp only [effectiveKey]
  rw [if_neg h]

theorem hexVal_hexDigitChar {d : Nat} (h : d < 16) : hexVal (hexDigitChar d) = d := by
  interval_cases d <;> decide

theorem escBody_none_ne {c : Char} (h : escBody c = none) : c ≠ '"' ∧ c ≠ '\\' := by
  constructor <;> intro heq <;> subst heq <;> simp [escBody] at h

theorem parseEsc_escBody {c : Char} {b : List Char} (h : escBody c = some b)
    (rest : List Char) : parseEsc (b ++ rest) = some (c, rest) := by
  by_cases h1 : c = '"'
  · subst h1
    rw [show escBody '"' = some ['"'] from by decide, Option.some.injEq] at h
    subst h; rfl
  by_cases h2 : c = '\\'
  · subst h2
    rw [show escBody '\\' = some ['\\'] from by decide, Option.some.injEq] at h
    subst h; rfl
  by_cases h3 : c = '\x08'
  · subst h3
    rw [show escBody '\x08' = some ['b'] from by decide, Option.some.injEq] at h
    subst h; rfl
  by_cases h4 : c = '\x0c'
  · subst h4
    rw [show escBody '\x0c' = some ['f'] from by decide, Option.some.injEq] at h
    subst h; rfl
  by_cases h5 : c = '\n'
  · subst h5
    rw [show escBody '\n' = some ['n'] from by decide, Option.some.injEq] at h
    subst h; rfl
  by_cases h6 : c = '\r'
  · subst h6
    rw [show escBody '\r' = some ['r'] from by decide, Option.some.injEq] at h
    subst h; rfl
  by_cases h7 : c = '\t'
  · subst h7
    rw [show escBody '\t' = some ['t'] from by decide, Option.some.injEq] at h
    subst h; rfl
  by_cases h8 : c.toNat < 32
  · simp only [escBody, if_neg h1, if_neg h2, if_neg h3, if_neg h4, if_neg h5, if_neg h6,
      if_neg h7, if_pos h8, Option.some.injEq] at h
    subst h
    have hdiv : c.toNat / 16 < 16 := by omega
    have hmod : c.toNat % 16 < 16 := Nat.mod_lt _ (by norm_num)
    have hstep : parseEsc ('u' :: '0' :: '0' :: hexDigitChar (c.toNat / 16) ::
        hexDigitChar (c.toNat % 16) :: rest) =
        some (Char.ofNat ((((hexVal '0' * 16 + hexVal '0') * 16 +
          hexVal (hexDigitChar (c.toNat / 16))) * 16 +
          hexVal (hexDigitChar (c.toNat % 16)))), rest) := rfl
    rw [List.cons_append, List.cons_append, List.cons_append, List.cons_append,
      List.cons_append, List.nil_append, hstep, hexVal_hexDigitChar hdiv,
      hexVal_hexDigitChar hmod, show hexVal '0' = 0 from rfl,
      show ∀ a b : Nat, ((0 * 16 + 0) * 16 + a) * 16 + b = a * 16 + b from by omega]
    have : c.toNat / 16 * 16 + c.toNat % 16 = c.toNat := by omega
    rw [this, Char.ofNat_toNat]
  · simp only [escBody, if_neg h1, if_neg h2, if_neg h3, if_neg h4, if_neg h5, if_neg h6,
      if_neg h7, if_neg h8] at h
    exact Option.noConfusion h

theorem escList_cons (c : Char) (cs : List Char) :
    escList (c :: cs) = escapeChar c ++ escList cs := rfl

theorem parseStrBody_escList :
    ∀ (cs : List Char) (fuel : Nat) (rest : List Char), cs.length < fuel →
      parseStrBody fuel (escList cs ++ '"' :: rest) = some (cs, rest) := by
  intro cs
  induction cs with
  | nil =>
    intro fuel rest hf
    cases fuel with
    | zero => exact absurd hf (by omega)
    | succ f =>
      show parseStrBody (f + 1) ('"' :: rest) = some ([], rest)
      simp [parseStrBody]
  | cons c cs ih =>
    intro fuel rest hf
    cases fuel with
    | zero => exact absurd hf (by omega)
    | succ f =>
      have hcs : cs.length < f := by
        simp only [List.length_cons] at hf; omega
      have hrec := ih f rest hcs
      rw [escList_cons]
      match hb : escBody c with
      | some b =>
        have hesc : escapeChar c = '\\' :: b := by rw [escapeChar, hb]
        rw [hesc]
        have hne : ('\\' : Char) ≠ '"' := by decide
        show parseStrBody (f + 1) ('\\' :: (b ++ escList cs ++ '"' :: rest)) = _
        simp only [parseStrBody, List.append_assoc]
        rw [parseEsc_escBody hb (escList cs ++ '"' :: rest)]
        simp [hne, hrec]
      | none =>
        have hesc : escapeChar c = [c] := by rw [escapeChar, hb]
        rw [hesc]
        obtain ⟨hq, hbs⟩ := escBody_none_ne hb
        show parseStrBody (f + 1) (c :: (escList cs ++ '"' :: rest)) = _
        simp only [parseStrBody, if_neg hq, if_neg hbs]
        rw [hrec]

theorem digitVal_decDigitChar {d : Nat} (h : d < 10) : digitVal (decDigitChar d) = d := by
  interval_cases d <;> decide

theorem decDigitChar_isDigit {d : Nat} (h : d < 10) : (decDigitChar d).isDigit = true := by
  interval_cases d <;> decide

theorem natChars_all_digit (n : Nat) : ∀ c ∈ natChars n, c.isDigit = true := by
  intro c hc
  rw [natChars] at hc
  by_cases h : n = 0
  · rw [if_pos h] at hc
    simp only [List.mem_singleton] at hc
    subst hc; decide
  · rw [if_neg h] at hc
    simp only [List.mem_reverse, List.mem_map] at hc
    obtain ⟨d, hd, rfl⟩ := hc
    exact decDigitChar_isDigit (Nat.digits_lt_base (by norm_num) hd)

theorem natChars_ne_nil (n : Nat) : natChars n ≠ [] := by
  rw [natChars]
  by_cases h : n = 0
  · rw [if_pos h]; simp
  · rw [if_neg h]
    simp only [ne_eq, List.reverse_eq_nil_iff, List.map_eq_nil_iff]
    exact Nat.digits_ne_nil_iff_ne_zero.mpr h

theorem takeWhile_append_all {α : Type} (p : α → Bool) (l1 l2 : List α)
    (h1 : ∀ c ∈ l1, p c = true) (h2 : ∀ c, l2.head? = some c → p c = false) :
    (l1 ++ l2).takeWhile p = l1 ∧ (l1 ++ l2).dropWhile p = l2 := by
  induction l1 with
  | nil =>
    simp only [List.nil_append]
    cases l2 with
    | nil => simp
    | cons c t =>
      rw [List.takeWhile_cons, List.dropWhile_cons, h2 c rfl]
      simp
  | cons c t ih =>
    simp only [List.cons_append, List.takeWhile_cons, List.dropWhile_cons,
      h1 c (List.mem_cons_self c t)]
    have := ih (fun x hx => h1 x (List.mem_cons_of_mem c hx))
    simp only [this.1, this.2]
    simp

theorem ofDigits_natChars (n : Nat) :
    Nat.ofDigits 10 (((natChars n).map digitVal).reverse) = n := by
  rw [natChars]
  by_cases h : n = 0
  · rw [if_pos h]
    subst h; decide
  · rw [if_neg h]
    rw [List.map_reverse, List.reverse_reverse, List.map_map]
    have : (Nat.digits 10 n).map (digitVal ∘ decDigitChar) = Nat.digits 10 n := by
      conv_rhs => rw [show Nat.digits 10 n = (Nat.digits 10 n).map id from (List.map_id _).symm]
      apply List.map_congr_left
      intro d hd
      exact digitVal_decDigitChar (Nat.digits_lt_base (by norm_num) hd)
    rw [this, Nat.ofDigits_digits]

theorem parseNum_natChars (n : Nat) (rest : List Char)
    (hrest : ∀ c, rest.head? = some c → c.isDigit = false) :
    parseNum (natChars n ++ rest) = some (n, rest) := by
  obtain ⟨htake, hdrop⟩ := takeWhile_append_all Char.isDigit (natChars n) rest
    (natChars_all_digit n) hrest
  rw [parseNum]
  simp only [htake, hdrop]
  rw [if_neg (natChars_ne_nil n), ofDigits_natChars]

theorem isDigit_ne {c : Char} (h : c.isDigit = true) :
    c ≠ '"' ∧ c ≠ '-' ∧ c ≠ 't' ∧ c ≠ 'f' ∧ c ≠ 'n' := by
  refine ⟨?_, ?_, ?_, ?_, ?_⟩ <;> intro heq <;> subst heq <;> exact absurd h (by decide)

theorem dropLit_self : ∀ (pre rest : List Char), dropLit pre (pre ++ rest) = some rest := by
  intro pre
  induction pre with
  | nil => intro rest; rfl
  | cons c cs ih =>
    intro rest
    show dropLit (c :: cs) (c :: (cs ++ rest)) = some rest
    simp [dropLit, ih]

theorem dropLit_none_head {c x : Char} (cs xs : List Char) (h : x ≠ c) :
    dropLit (c :: cs) (x :: xs) = none := by
  simp [dropLit, h]

theorem parseVal_chars (v : JsVal) (fuel : Nat) (rest : List Char)
    (hv : strLenV v < fuel)
    (hrest : ∀ c, rest.head? = some c → c.isDigit = false) :
    parseVal fuel (jsonValChars v ++ rest) = some (v, rest) := by
  cases v with
  | vStr s =>
    obtain ⟨sd⟩ := s
    show parseVal fuel (('"' :: (escList sd ++ ['"'])) ++ rest) = _
    rw [List.cons_append, List.append_assoc, List.singleton_append]
    simp only [parseVal, if_pos rfl]
    rw [parseStrBody_escList sd fuel rest hv]
    simp
  | vNum n =>
    rcases lt_or_ge n 0 with hneg | hpos
    · have hj : jsonValChars (.vNum n) = '-' :: natChars n.natAbs := by
        simp [jsonValChars, intChars, if_pos hneg]
      rw [hj, List.cons_append]
      have hpn := parseNum_natChars n.natAbs rest hrest
      simp only [parseVal, List.cons_append]
      simp [hpn]
      rw [abs_of_neg hneg, neg_neg]
    · have hj : jsonValChars (.vNum n) = natChars n.natAbs := by
        simp [jsonValChars, intChars, if_neg (not_lt.mpr hpos)]
      obtain ⟨d, ds, hds⟩ : ∃ d ds, natChars n.natAbs = d :: ds := by
        cases hn : natChars n.natAbs with
        | nil => exact absurd hn (natChars_ne_nil _)
        | cons d ds => exact ⟨d, ds, rfl⟩
      have hd : d.isDigit = true := natChars_all_digit _ d (hds ▸ List.mem_cons_self _ _)
      obtain ⟨hq, hm, ht, hf2, hn2⟩ := isDigit_ne hd
      rw [hj, hds, List.cons_append]
      simp only [parseVal, if_neg hq, if_neg hm]
      rw [dropLit_none_head _ _ ht, dropLit_none_head _ _ hf2, dropLit_none_head _ _ hn2]
      rw [show d :: (ds ++ rest) = (d :: ds) ++ rest from rfl, ← hds]
      have hpn := parseNum_natChars n.natAbs rest hrest
      simp [hpn]
      exact hpos
  | vBool b =>
    cases b
    · show parseVal fuel ("false".data ++ rest) = _
      rw [show "false".data = 'f' :: 'a' :: 'l' :: 's' :: 'e' :: [] from rfl]
      simp [parseVal, dropLit]
    · show parseVal fuel ("true".data ++ rest) = _
      rw [show "true".data = 't' :: 'r' :: 'u' :: 'e' :: [] from rfl]
      simp [parseVal, dropLit]
  | vNull =>
    show parseVal fuel ("null".data ++ rest) = _
    rw [show "null".data = 'n' :: 'u' :: 'l' :: 'l' :: [] from rfl]
    simp [parseVal, dropLit]

theorem parseItem_chars (kv : String × JsVal) (fuel : Nat) (rest : List Char)
    (hk : kv.1.length < fuel) (hv : strLenV kv.2 < fuel)
    (hrest : ∀ c, rest.head? = some c → c.isDigit = false) :
    parseItem fuel (jsonItemChars kv ++ rest) = some (kv, rest) := by
  obtain ⟨k, v⟩ := kv
  obtain ⟨kd⟩ := k
  simp only [jsonItemChars, quoteChars, List.cons_append, List.append_assoc,
    List.singleton_append]
  simp only [parseItem, if_pos rfl]
  rw [parseStrBody_escList kd fuel _ hk]
  simp [parseVal_chars v fuel rest hv hrest]

theorem itemsTail_foldr (t : JsRecord) :
    t.foldr (fun kv' acc => ',' :: jsonItemChars kv' ++ acc) ['\x7d'] = itemsTail t := by
  induction t with
  | nil => rfl
  | cons kv t ih =>
    rw [List.foldr_cons, ih]
    rfl

theorem parseItems_chars :
    ∀ (t : JsRecord) (kv : String × JsVal) (fuel : Nat) (rest : List Char),
      recBound (kv :: t) ≤ fuel →
      (∀ c, rest.head? = some c → c.isDigit = false) →
      parseItems fuel (jsonItemChars kv ++ itemsTail t ++ rest) = some (kv :: t, rest) := by
  intro t
  induction t with
  | nil =>
    intro kv fuel rest hb hrest
    simp only [recBound, List.map_cons, List.map_nil, List.foldr_cons, List.foldr_nil,
      List.length_cons, List.length_nil, itemBound] at hb
    cases fuel with
    | zero => omega
    | succ f =>
      have hkb : kv.1.length < f := by omega
      have hvb : strLenV kv.2 < f := by omega
      have hitem := parseItem_chars kv f ('\x7d' :: rest) hkb hvb
        (by intro c hc; cases hc; decide)
      simp only [itemsTail, List.append_assoc, List.singleton_append]
      simp only [parseItems]
      rw [hitem]
      rfl
  | cons kv2 t' ih =>
    intro kv fuel rest hb hrest
    simp only [recBound, List.map_cons, List.foldr_cons, List.length_cons, itemBound] at hb
    cases fuel with
    | zero => omega
    | succ f =>
      have hkb : kv.1.length < f := by omega
      have hvb : strLenV kv.2 < f := by omega
      have hitem := parseItem_chars kv f
        (',' :: (jsonItemChars kv2 ++ itemsTail t' ++ rest)) hkb hvb
        (by intro c hc; cases hc; decide)
      have hrec := ih kv2 f rest
        (by simp only [recBound, List.map_cons, List.foldr_cons, List.length_cons, itemBound]
            omega)
        hrest
      simp only [List.append_assoc] at hitem hrec
      simp only [itemsTail, List.cons_append, List.append_assoc]
      simp only [parseItems]
      simp only [hitem]
      simp only [hrec]

theorem parseRecord_chars (r : JsRecord) (fuel : Nat) (hb : recBound r ≤ fuel) :
    parseRecord fuel (jsonRecordChars r) = some (r, []) := by
  cases r with
  | nil => rfl
  | cons kv t =>
    have hne : jsonItemChars kv ++ itemsTail t ≠ ['\x7d'] := by
      obtain ⟨k, v⟩ := kv
      obtain ⟨kd⟩ := k
      simp [jsonItemChars, quoteChars, List.cons_append]
    have hitems := parseItems_chars t kv fuel [] hb (by intro c hc; cases hc)
    rw [List.append_nil] at hitems
    show parseRecord fuel ('\x7b' :: (jsonItemChars kv ++
      t.foldr (fun kv' acc => ',' :: jsonItemChars kv' ++ acc) ['\x7d'])) = _
    rw [itemsTail_foldr]
    simp only [parseRecord, if_neg hne]
    exact hitems

theorem jsonStringify_inj {r1 r2 : JsRecord} (h : jsonStringify r1 = jsonStringify r2) :
    r1 = r2 := by
  have hchars : jsonRecordChars r1 = jsonRecordChars r2 := congrArg String.data h
  have h1 := parseRecord_chars r1 (max (recBound r1) (recBound r2)) (le_max_left _ _)
  have h2 := parseRecord_chars r2 (max (recBound r1) (recBound r2)) (le_max_right _ _)
  rw [hchars, h2] at h1
  have h3 := h1
  simp only [Option.some.injEq, Prod.mk.injEq, and_true] at h3
  exact h3.symm

/-! ## Fetch client lemmas -/

theorem retriable_not_terminal {code : Nat} (h : retriableStatus code = true) :
    isTerminalStatus code = false := by
  simp only [retriableStatus, Bool.or_eq_true, beq_iff_eq] at h
  rcases h with (((h | h) | h) | h) | h <;> subst h <;> decide

theorem fetchWithRetryAux_terminal (oracle : Nat → HttpAttempt) (fuel rc code : Nat)
    (hst : oracle rc = .status code) (ht : isTerminalStatus code = true) :
    fetchWithRetryAux oracle fuel rc = (.resp code, []) := by
  cases fuel <;> simp [fetchWithRetryAux, hst, ht]

theorem fetchWithRetryAux_retry (oracle : Nat → HttpAttempt) :
    ∀ (k fuel rc code : Nat), k ≤ fuel →
      (∀ i < k, retriableAttempt (oracle (rc + i)) = true) →
      oracle (rc + k) = .status code → isTerminalStatus code = true →
      fetchWithRetryAux oracle fuel rc =
        (.resp code, (List.range k).map (fun i => backoffDelay (rc + i))) := by
  intro k
  induction k with
  | zero =>
    intro fuel rc code _ _ h3 h4
    simpa using fetchWithRetryAux_terminal oracle fuel rc code (by simpa using h3) h4
  | succ k ih =>
    intro fuel rc code hk hret hst hterm
    cases fuel with
    | zero => omega
    | succ f =>
      have h0 : retriableAttempt (oracle rc) = true := by
        have := hret 0 (by omega)
        simpa using this
      have hihret : ∀ i < k, retriableAttempt (oracle (rc + 1 + i)) = true := by
        intro i hi
        have h := hret (i + 1) (by omega)
        rwa [show rc + (i + 1) = rc + 1 + i from by omega] at h
      have hihst : oracle (rc + 1 + k) = .status code := by
        rwa [show rc + 1 + k = rc + (k + 1) from by omega]
      have htail := ih f (rc + 1) code (by omega) hihret hihst hterm
      have hdel : backoffDelay rc :: (List.range k).map (fun i => backoffDelay (rc + 1 + i)) =
          (List.range (k + 1)).map (fun i => backoffDelay (rc + i)) := by
        simp only [List.range_succ_eq_map, List.map_cons, List.map_map, Nat.add_zero]
        congr 1
        apply List.map_congr_left
        intro i _
        simp only [Function.comp_apply]
        congr 1
        omega
      cases ho : oracle rc with
      | transport m =>
        simp only [fetchWithRetryAux, ho, htail]
        rw [hdel]
      | status code' =>
        have hretr : retriableStatus code' = true := by
          rw [ho] at h0
          simpa [retriableAttempt] using h0
        have hnt : isTerminalStatus code' = false := retriable_not_terminal hretr
        simp only [fetchWithRetryAux, ho, hnt, Bool.false_eq_true, if_false, hretr, if_true,
          htail]
        rw [hdel]

theorem fetchWithRetryAux_exhaust (oracle : Nat → HttpAttempt) :
    ∀ (fuel rc : Nat),
      (∀ i ≤ fuel, retriableAttempt (oracle (rc + i)) = true) →
      fetchWithRetryAux oracle fuel rc =
        (.thrown (attemptErrMsg (oracle (rc + fuel))),
         (List.range fuel).map (fun i => backoffDelay (rc + i))) := by
  intro fuel
  induction fuel with
  | zero =>
    intro rc hret
    have h0 : retriableAttempt (oracle rc) = true := by simpa using hret 0 (by omega)
    cases ho : oracle rc with
    | transport m => simp [fetchWithRetryAux, ho, attemptErrMsg]
    | status code =>
      have hretr : retriableStatus code = true := by
        rw [ho] at h0
        simpa [retriableAttempt] using h0
      have hnt : isTerminalStatus code = false := retriable_not_terminal hretr
      simp [fetchWithRetryAux, ho, hnt, hretr, attemptErrMsg]
  | succ f ih =>
    intro rc hret
    have h0 : retriableAttempt (oracle rc) = true := by simpa using hret 0 (by omega)
    have hihret : ∀ i ≤ f, retriableAttempt (oracle (rc + 1 + i)) = true := by
      intro i hi
      have h := hret (i + 1) (by omega)
      rwa [show rc + (i + 1) = rc + 1 + i from by omega] at h
    have htail := ih (rc + 1) hihret
    have hmsg : rc + 1 + f = rc + (f + 1) := by omega
    have hdel : backoffDelay rc :: (List.range f).map (fun i => backoffDelay (rc + 1 + i)) =
        (List.range (f + 1)).map (fun i => backoffDelay (rc + i)) := by
      simp only [List.range_succ_eq_map, List.map_cons, List.map_map, Nat.add_zero]
      congr 1
      apply List.map_congr_left
      intro i _
      simp only [Function.comp_apply]
      congr 1
      omega
    cases ho : oracle rc with
    | transport m =>
      simp only [fetchWithRetryAux, ho, htail, hmsg]
      rw [hdel]
    | status code =>
      have hretr : retriableStatus code = true := by
        rw [ho] at h0
        simpa [retriableAttempt] using h0
      have hnt : isTerminalStatus code = false := retriable_not_terminal hretr
      simp only [fetchWithRetryAux, ho, hnt, Bool.false_eq_true, if_false, hretr, if_true,
        htail, hmsg]
      rw [hdel]

/-! ## Bulk-variant loop lemmas -/

theorem goodV2_elim {fr : FetchResult} (h : goodV2 fr = true) :
    ∃ resp, fr = .ok resp ∧ (normalizeV2 resp).1.length ≠ 0 ∧
      (normalizeV2 resp).2.2 = true := by
  cases fr with
  | ok resp =>
    have h' : ¬(normalizeV2 resp).1 = [] ∧ (normalizeV2 resp).2.2 = true := by
      simpa [goodV2, Bool.and_eq_true] using h
    exact ⟨resp, rfl, fun hlen => h'.1 (List.length_eq_zero.mp hlen), h'.2⟩
  | fail m => simp [goodV2] at h

theorem syncLoopV2_fail (fetch : Nat → FetchResult) (m : String) :
    ∀ (k fuel p : Nat) (cur fc : Option String) (acc : List JsRecord),
      k < fuel → (∀ i < k, goodV2 (fetch (p + i)) = true) →
      fetch (p + k) = .fail m →
      syncLoopV2 fetch fuel p cur acc fc =
        ⟨acc ++ v2Acc fetch p k, v2Cur fetch p k fc, false, p + k + 1, true⟩ := by
  intro k
  induction k with
  | zero =>
    intro fuel p cur fc acc hk _ hfail
    cases fuel with
    | zero => omega
    | succ f =>
      rw [Nat.add_zero] at hfail
      simp [syncLoopV2, hfail, v2Acc, v2Cur]
  | succ k ih =>
    intro fuel p cur fc acc hk hgood hfail
    cases fuel with
    | zero => omega
    | succ f =>
      obtain ⟨resp, hok, hne, hmore⟩ := goodV2_elim (by simpa using hgood 0 (by omega))
      rcases hv : normalizeV2 resp with ⟨d, nc, hm⟩
      rw [hv] at hne hmore
      simp only at hne hmore
      have hne0 : ¬(d.length = 0) := hne
      subst hmore
      have hrec := ih f (p + 1) nc nc (acc ++ d) (by omega)
        (by intro i hi
            have := hgood (i + 1) (by omega)
            rwa [show p + (i + 1) = p + 1 + i from by omega] at this)
        (by rwa [show p + 1 + k = p + (k + 1) from by omega])
      simp only [syncLoopV2, hok, hv, if_neg hne0, if_pos rfl]
      rw [hrec]
      have hfp : fetch p = .ok resp := by simpa using hok
      have hacc : (acc ++ d) ++ v2Acc fetch (p + 1) k = acc ++ v2Acc fetch p (k + 1) := by
        rw [List.append_assoc]
        congr 1
        rw [show v2Acc fetch p (k + 1) = (normalizeV2 (respOf (fetch p))).1 ++
            v2Acc fetch (p + 1) k from rfl, hfp]
        simp only [respOf, hv]
      have hcur : v2Cur fetch (p + 1) k nc = v2Cur fetch p (k + 1) fc := by
        cases k with
        | zero =>
          show nc = (normalizeV2 (respOf (fetch (p + 0)))).2.1
          rw [Nat.add_zero, hfp]
          simp only [respOf, hv]
        | succ j =>
          show (normalizeV2 (respOf (fetch (p + 1 + j)))).2.1 =
            (normalizeV2 (respOf (fetch (p + (j + 1))))).2.1
          rw [show p + 1 + j = p + (j + 1) from by omega]
      rw [hacc, hcur, show p + 1 + k + 1 = p + (k + 1) + 1 from by omega]
      simp

theorem syncLoopV2_empty (fetch : Nat → FetchResult) (resp : ApiResponse) :
    ∀ (k fuel p : Nat) (cur fc : Option String) (acc : List JsRecord),
      k < fuel → (∀ i < k, goodV2 (fetch (p + i)) = true) →
      fetch (p + k) = .ok resp → (normalizeV2 resp).1 = [] →
      syncLoopV2 fetch fuel p cur acc fc =
        ⟨acc ++ v2Acc fetch p k, v2Cur fetch p k fc,
         decide (p + k = 0) && decide ((acc ++ v2Acc fetch p k).length = 0),
         p + k + 1, false⟩ := by
  intro k
  induction k with
  | zero =>
    intro fuel p cur fc acc hk _ hok hempty
    cases fuel with
    | zero => omega
    | succ f =>
      rw [Nat.add_zero] at hok
      rcases hv : normalizeV2 resp with ⟨d, nc, hm⟩
      rw [hv] at hempty
      simp only at hempty
      subst hempty
      simp [syncLoopV2, hok, hv, v2Acc, v2Cur]
  | succ k ih =>
    intro fuel p cur fc acc hk hgood hok hempty
    cases fuel with
    | zero => omega
    | succ f =>
      obtain ⟨resp0, hok0, hne, hmore⟩ := goodV2_elim (by simpa using hgood 0 (by omega))
      rcases hv : normalizeV2 resp0 with ⟨d, nc, hm⟩
      rw [hv] at hne hmore
      simp only at hne hmore
      have hne0 : ¬(d.length = 0) := hne
      subst hmore
      have hrec := ih f (p + 1) nc nc (acc ++ d) (by omega)
        (by intro i hi
            have := hgood (i + 1) (by omega)
            rwa [show p + (i + 1) = p + 1 + i from by omega] at this)
        (by rwa [show p + 1 + k = p + (k + 1) from by omega]) hempty
      simp only [syncLoopV2, hok0, hv, if_neg hne0, if_pos rfl]
      rw [hrec]
      have hfp : fetch p = .ok resp0 := by simpa using hok0
      have hacc : (acc ++ d) ++ v2Acc fetch (p + 1) k = acc ++ v2Acc fetch p (k + 1) := by
        rw [List.append_assoc]
        congr 1
        rw [show v2Acc fetch p (k + 1) = (normalizeV2 (respOf (fetch p))).1 ++
            v2Acc fetch (p + 1) k from rfl, hfp]
        simp only [respOf, hv]
      have hcur : v2Cur fetch (p + 1) k nc = v2Cur fetch p (k + 1) fc := by
        cases k with
        | zero =>
          show nc = (normalizeV2 (respOf (fetch (p + 0)))).2.1
          rw [Nat.add_zero, hfp]
          simp only [respOf, hv]
        | succ j =>
          show (normalizeV2 (respOf (fetch (p + 1 + j)))).2.1 =
            (normalizeV2 (respOf (fetch (p + (j + 1))))).2.1
          rw [show p + 1 + j = p + (j + 1) from by omega]
      have hc1 : decide (p + 1 + k = 0) = false := by
        simp only [decide_eq_false_iff_not]
        omega
      have hc2 : decide (p + (k + 1) = 0) = false := by
        simp only [decide_eq_false_iff_not]
        omega
      rw [hacc, hcur, hc1, hc2, show p + 1 + k + 1 = p + (k + 1) + 1 from by omega]
      simp

/-! ## Per-page-variant loop lemmas -/

theorem goodV1_elim {fr : FetchResult} (h : goodV1 fr = true) :
    ∃ resp, fr = .ok resp ∧ (dataV1 resp).length ≠ 0 ∧
      (cursorOf resp).isSome = true ∧ hasMoreOf resp ≠ some false := by
  cases fr with
  | ok resp =>
    have h' := h
    simp only [goodV1, Bool.and_eq_true, bne_iff_ne, ne_eq, Bool.not_eq_true',
      beq_eq_false_iff_ne] at h'
    exact ⟨resp, rfl, h'.1.1, h'.1.2, h'.2⟩
  | fail m => simp [goodV1] at h

theorem syncLoopV1_step (e y : String) (fetch : Nat → FetchResult)
    (we : Nat → Option String) (f p : Nat) (cur : Option String) (w : SyncWorld)
    (nr dp : Nat) (tr : List SyncEvent)
    (hg : goodV1 (fetch p) = true) (hw : we p = none) :
    syncLoopV1 e y fetch we (f + 1) p cur w nr dp tr =
      syncLoopV1 e y fetch we f (p + 1) (cursorOf (respOf (fetch p)))
        (v1StepW e y (respOf (fetch p)) w)
        (nr + (appendToExcel e y w.file (dataV1 (respOf (fetch p)))).2.newRecords)
        (dp + (appendToExcel e y w.file (dataV1 (respOf (fetch p)))).2.duplicatesSkipped)
        (tr ++ [.writeOk (appendToExcel e y w.file (dataV1 (respOf (fetch p)))).2.totalRecords,
                .stateUpd (cursorOf (respOf (fetch p)))
                  (appendToExcel e y w.file (dataV1 (respOf (fetch p)))).2.totalRecords]) := by
  obtain ⟨resp, hok, hne, hsome, hmore⟩ := goodV1_elim hg
  obtain ⟨c, hc⟩ := Option.isSome_iff_exists.mp hsome
  have hcond : (decide (cursorOf resp = none) || decide (hasMoreOf resp = some false))
      = false := by
    simp [hc, decide_eq_false hmore]
  rcases ha : appendToExcel e y w.file (dataV1 resp) with ⟨file', res⟩
  simp only [syncLoopV1, hok, if_neg hne, hw, ha]
  simp only [respOf, v1StepW, ha, hcond, Bool.false_eq_true, if_false]

theorem syncLoopV1_fail (e y : String) (fetch : Nat → FetchResult)
    (we : Nat → Option String) (m : String) :
    ∀ (k fuel p : Nat) (cur : Option String) (w : SyncWorld) (nr dp : Nat)
      (tr : List SyncEvent),
      k < fuel → (∀ i < k, goodV1 (fetch (p + i)) = true) →
      (∀ i < k, we (p + i) = none) →
      fetch (p + k) = .fail m →
      (syncLoopV1 e y fetch we fuel p cur w nr dp tr).world = v1Iter e y fetch k p w ∧
      (syncLoopV1 e y fetch we fuel p cur w nr dp tr).result.error =
        some ("Sync interrupted: " ++ m) ∧
      (syncLoopV1 e y fetch we fuel p cur w nr dp tr).result.isComplete = false ∧
      (syncLoopV1 e y fetch we fuel p cur w nr dp tr).fetchCalls = p + k + 1 := by
  intro k
  induction k with
  | zero =>
    intro fuel p cur w nr dp tr hk _ _ hfail
    cases fuel with
    | zero => omega
    | succ f =>
      rw [Nat.add_zero] at hfail
      simp [syncLoopV1, hfail, v1Iter]
  | succ k ih =>
    intro fuel p cur w nr dp tr hk hgood hwe hfail
    cases fuel with
    | zero => omega
    | succ f =>
      have hg0 : goodV1 (fetch p) = true := by simpa using hgood 0 (by omega)
      have hw0 : we p = none := by simpa using hwe 0 (by omega)
      rw [syncLoopV1_step e y fetch we f p cur w nr dp tr hg0 hw0]
      have hrec := ih f (p + 1) (cursorOf (respOf (fetch p)))
        (v1StepW e y (respOf (fetch p)) w)
        (nr + (appendToExcel e y w.file (dataV1 (respOf (fetch p)))).2.newRecords)
        (dp + (appendToExcel e y w.file (dataV1 (respOf (fetch p)))).2.duplicatesSkipped)
        (tr ++ [.writeOk (appendToExcel e y w.file (dataV1 (respOf (fetch p)))).2.totalRecords,
                .stateUpd (cursorOf (respOf (fetch p)))
                  (appendToExcel e y w.file (dataV1 (respOf (fetch p)))).2.totalRecords])
        (by omega)
        (by intro i hi
            have := hgood (i + 1) (by omega)
            rwa [show p + (i + 1) = p + 1 + i from by omega] at this)
        (by intro i hi
            have := hwe (i + 1) (by omega)
            rwa [show p + (i + 1) = p + 1 + i from by omega] at this)
        (by rwa [show p + 1 + k = p + (k + 1) from by omega])
      refine ⟨?_, hrec.2.1, hrec.2.2.1, ?_⟩
      · rw [hrec.1]
        rfl
      · rw [hrec.2.2.2]
        omega

theorem syncLoopV1_empty (e y : String) (fetch : Nat → FetchResult)
    (we : Nat → Option String) (resp : ApiResponse) :
    ∀ (k fuel p : Nat) (cur : Option String) (w : SyncWorld) (nr dp : Nat)
      (tr : List SyncEvent),
      k < fuel → (∀ i < k, goodV1 (fetch (p + i)) = true) →
      (∀ i < k, we (p + i) = none) →
      fetch (p + k) = .ok resp → dataV1 resp = [] →
      (syncLoopV1 e y fetch we fuel p cur w nr dp tr).world = v1Iter e y fetch k p w ∧
      (syncLoopV1 e y fetch we fuel p cur w nr dp tr).result.isComplete = true ∧
      (syncLoopV1 e y fetch we fuel p cur w nr dp tr).fetchCalls = p + k + 1 := by
  intro k
  induction k with
  | zero =>
    intro fuel p cur w nr dp tr hk _ _ hok hempty
    cases fuel with
    | zero => omega
    | succ f =>
      rw [Nat.add_zero] at hok
      simp [syncLoopV1, hok, hempty, v1Iter, v1Post]
  | succ k ih =>
    intro fuel p cur w nr dp tr hk hgood hwe hok hempty
    cases fuel with
    | zero => omega
    | succ f =>
      have hg0 : goodV1 (fetch p) = true := by simpa using hgood 0 (by omega)
      have hw0 : we p = none := by simpa using hwe 0 (by omega)
      rw [syncLoopV1_step e y fetch we f p cur w nr dp tr hg0 hw0]
      have hrec := ih f (p + 1) (cursorOf (respOf (fetch p)))
        (v1StepW e y (respOf (fetch p)) w)
        (nr + (appendToExcel e y w.file (dataV1 (respOf (fetch p)))).2.newRecords)
        (dp + (appendToExcel e y w.file (dataV1 (respOf (fetch p)))).2.duplicatesSkipped)
        (tr ++ [.writeOk (appendToExcel e y w.file (dataV1 (respOf (fetch p)))).2.totalRecords,
                .stateUpd (cursorOf (respOf (fetch p)))
                  (appendToExcel e y w.file (dataV1 (respOf (fetch p)))).2.totalRecords])
        (by omega)
        (by intro i hi
            have := hgood (i + 1) (by omega)
            rwa [show p + (i + 1) = p + 1 + i from by omega] at this)
        (by intro i hi
            have := hwe (i + 1) (by omega)
            rwa [show p + (i + 1) = p + 1 + i from by omega] at this)
        (by rwa [show p + 1 + k = p + (k + 1) from by omega]) hempty
      refine ⟨?_, hrec.2.1, ?_⟩
      · rw [hrec.1]
        rfl
      · rw [hrec.2.2]
        omega

/-! ## Trace shape lemmas -/

theorem TraceBlocks_append {t1 t2 : List SyncEvent} (h1 : TraceBlocks t1)
    (h2 : TraceBlocks t2) : TraceBlocks (t1 ++ t2) := by
  induction h1 with
  | nil => simpa
  | fail rest _ ih => exact .fail _ ih
  | okUpd t c rest _ ih => exact .okUpd _ _ _ ih

theorem updFollowsWrite_of_blocks {tr : List SyncEvent} (h : TraceBlocks tr) :
    updFollowsWrite tr = true := by
  induction h with
  | nil => rfl
  | fail rest _ ih =>
    simp only [updFollowsWrite]
    exact ih
  | okUpd t c rest _ ih =>
    simp only [updFollowsWrite, beq_self_eq_true, Bool.true_and]
    exact ih

theorem syncLoopV1_trace (e y : String) (fetch : Nat → FetchResult)
    (we : Nat → Option String) :
    ∀ (fuel p : Nat) (cur : Option String) (w : SyncWorld) (nr dp : Nat)
      (tr : List SyncEvent),
      ∃ ext, (syncLoopV1 e y fetch we fuel p cur w nr dp tr).trace = tr ++ ext ∧
        TraceBlocks ext := by
  intro fuel
  induction fuel with
  | zero =>
    intro p cur w nr dp tr
    exact ⟨[], by simp [syncLoopV1, v1Post], .nil⟩
  | succ f ih =>
    intro p cur w nr dp tr
    cases hf : fetch p with
    | fail m => exact ⟨[], by simp [syncLoopV1, hf], .nil⟩
    | ok resp =>
      by_cases hempty : (dataV1 resp).length = 0
      · exact ⟨[], by simp [syncLoopV1, hf, hempty, v1Post], .nil⟩
      · cases hw : we p with
        | some m =>
          exact ⟨[.writeFail], by simp [syncLoopV1, hf, hempty, hw], .fail _ .nil⟩
        | none =>
          rcases ha : appendToExcel e y w.file (dataV1 resp) with ⟨file', res⟩
          by_cases hcond : (decide (cursorOf resp = none) ||
              decide (hasMoreOf resp = some false)) = true
          · refine ⟨[.writeOk res.totalRecords,
              .stateUpd (cursorOf resp) res.totalRecords], ?_, .okUpd _ _ _ .nil⟩
            have hempty' : ¬(dataV1 resp = []) := fun h => hempty (by simp [h])
            simp [syncLoopV1, hf, if_neg hempty, if_neg hempty', hw, ha, hcond, v1Post]
          · obtain ⟨ext, hext, hblocks⟩ := ih (p + 1) (cursorOf resp)
              ⟨some file', some ⟨cursorOf resp, res.totalRecords⟩⟩
              (nr + res.newRecords) (dp + res.duplicatesSkipped)
              (tr ++ [.writeOk res.totalRecords, .stateUpd (cursorOf resp) res.totalRecords])
            refine ⟨[.writeOk res.totalRecords,
              .stateUpd (cursorOf resp) res.totalRecords] ++ ext, ?_,
              TraceBlocks_append (.okUpd _ _ _ .nil) hblocks⟩
            have hloop : syncLoopV1 e y fetch we (f + 1) p cur w nr dp tr =
                syncLoopV1 e y fetch we f (p + 1) (cursorOf resp)
                  ⟨some file', some ⟨cursorOf resp, res.totalRecords⟩⟩
                  (nr + res.newRecords) (dp + res.duplicatesSkipped)
                  (tr ++ [.writeOk res.totalRecords,
                    .stateUpd (cursorOf resp) res.totalRecords]) := by
              simp only [syncLoopV1, hf, if_neg hempty, hw, ha]
              rw [if_neg hcond]
            rw [hloop, hext, List.append_assoc]

theorem syncV2_trace (e y : String) (maxPages : Nat) (fetch : Nat → FetchResult)
    (writeErr : Option String) (w : SyncWorld) :
    TraceBlocks (syncV2 e y maxPages fetch writeErr w).trace := by
  simp only [syncV2]
  rcases ha : appendToExcel e y w.file (syncLoopV2 fetch maxPages 0 (resumeCursor w) []
      (resumeCursor w)).accumulated with ⟨file', res⟩
  by_cases hacc : (syncLoopV2 fetch maxPages 0 (resumeCursor w) []
      (resumeCursor w)).accumulated.length ≠ 0
  · rw [if_pos hacc]
    cases writeErr with
    | some m => exact .fail _ .nil
    | none =>
      simp only [ha]
      exact .okUpd _ _ _ .nil
  · rw [if_neg hacc]
    exact .nil

/-! ## Remaining helper lemmas -/

theorem effectiveKey_fallback_ne (kf : List String) (r1 r2 : JsRecord)
    (h1 : ∀ f ∈ kf, keyComponent r1 f = "") (h2 : ∀ f ∈ kf, keyComponent r2 f = "")
    (hne : r1 ≠ r2) : effectiveKey r1 kf ≠ effectiveKey r2 kf := by
  rw [effectiveKey_fallback r1 kf h1, effectiveKey_fallback r2 kf h2]
  intro heq
  apply hne
  have hd := congrArg String.data heq
  rw [data_append, data_append] at hd
  exact jsonStringify_inj (congrArg String.mk (List.append_cancel_left hd))

theorem assoc_nodup_unique {β : Type} :
    ∀ (l : List (String × β)) (a : String) (b b' : β),
      (l.map Prod.fst).Nodup → (a, b) ∈ l → (a, b') ∈ l → b = b' := by
  intro l
  induction l with
  | nil => intro a b b' _ h _; cases h
  | cons hd tl ih =>
    intro a b b' hnd h1 h2
    simp only [List.map_cons, List.nodup_cons] at hnd
    rcases List.mem_cons.mp h1 with he1 | ht1 <;> rcases List.mem_cons.mp h2 with he2 | ht2
    · have := he1.trans he2.symm
      simpa using this
    · exfalso
      apply hnd.1
      have : a = hd.1 := by rw [← he1]
      rw [← this]
      exact List.mem_map_of_mem Prod.fst ht2
    · exfalso
      apply hnd.1
      have : a = hd.1 := by rw [← he2]
      rw [← this]
      exact List.mem_map_of_mem Prod.fst ht1
    · exact ih a b b' hnd.2 ht1 ht2

theorem v2Acc_len_ne (fetch : Nat → FetchResult) (k : Nat) (hk : 1 ≤ k)
    (hg : goodV2 (fetch 0) = true) : (v2Acc fetch 0 k).length ≠ 0 := by
  obtain ⟨resp, hok, hne, _⟩ := goodV2_elim hg
  cases k with
  | zero => omega
  | succ j =>
    show ((normalizeV2 (respOf (fetch 0))).1 ++ v2Acc fetch 1 j).length ≠ 0
    rw [hok]
    simp only [respOf, List.length_append]
    omega

theorem splitPipe_empty_all : (jsSplitPipe "").all (fun k => k = "") = true := by decide

/-! ## Claim theorems -/

/-- C1: the spec reads the key table's `"a||b"` entries as fallback
chains (first non-empty candidate field wins per component), with
default `["kode_rup"]` for unmapped endpoints.  The code evaluates the
table entry as one literal field name: for the `paket-anggaran-penyedia`
endpoint and a record carrying only `kd_rup = "123"`, the code's key is
`""` while the spec's chain resolution yields `"123"`.  The default for
unmapped endpoints does hold. -/
theorem generateRecordKey_literal_lookup_vs_spec_chain :
    getUniqueKeyFields "/v1/rup/paket-anggaran-penyedia" = ["kode_rup||kd_rup"] ∧
    getUniqueKeyFields "/v1/rup/unmapped-dataset" = ["kode_rup"] ∧
    generateRecordKey [("kd_rup", JsVal.vStr "123")]
      (getUniqueKeyFields "/v1/rup/paket-anggaran-penyedia") = "" ∧
    specResolveKey [("kd_rup", JsVal.vStr "123")]
      (getUniqueKeyFields "/v1/rup/paket-anggaran-penyedia") = "123" := by
  refine ⟨?_, ?_, ?_, ?_⟩ <;> decide

/-- C2: re-syncing a record whose key fields are all empty duplicates
it in the stored table, because `loadExistingRecords` rebuilds stored
keys without the `__row_` content fallback that `appendToExcel` applies
to incoming records.  After two appends of the same record the table
holds two copies sharing one Record Key. -/
theorem appendToExcel_resync_duplicates_empty_key_record :
    (appendToExcel "/v1/rup/unmapped-dataset" "2024"
        (some (appendToExcel "/v1/rup/unmapped-dataset" "2024" none
          [[("foo", JsVal.vStr "bar")]]).1)
        [[("foo", JsVal.vStr "bar")]]).1.records =
      [[("foo", JsVal.vStr "bar")], [("foo", JsVal.vStr "bar")]] ∧
    ((appendToExcel "/v1/rup/unmapped-dataset" "2024"
        (some (appendToExcel "/v1/rup/unmapped-dataset" "2024" none
          [[("foo", JsVal.vStr "bar")]]).1)
        [[("foo", JsVal.vStr "bar")]]).1.records.map
      (fun q => effectiveKey q (getUniqueKeyFields "/v1/rup/unmapped-dataset"))).dedup.length
      = 1 := by
  constructor <;> decide

/-- C3: the dedup merge of `appendToExcel` processes the batch in
order: kept records appear in batch order (a sublist), kept + skipped
counts sum to the batch length, the kept records' effective keys are
pairwise distinct and disjoint from the existing key set, every batch
record's key ends up in the key set, and a record whose key is new
relative to the existing set and to all earlier batch records is kept
(first occurrence wins). -/
theorem dedupMerge_processes_in_order (S kf : List String) (batch : List JsRecord) :
    ((dedupMerge S kf batch).uniq.length + (dedupMerge S kf batch).dups = batch.length) ∧
    (dedupMerge S kf batch).uniq.Sublist batch ∧
    ((dedupMerge S kf batch).uniq.map (fun r => effectiveKey r kf)).Nodup ∧
    (∀ r ∈ (dedupMerge S kf batch).uniq, effectiveKey r kf ∉ S) ∧
    (∀ r ∈ batch, effectiveKey r kf ∈ (dedupMerge S kf batch).keys) ∧
    (∀ pre r post, batch = pre ++ r :: post → effectiveKey r kf ∉ S →
      (∀ q ∈ pre, effectiveKey q kf ≠ effectiveKey r kf) →
      r ∈ (dedupMerge S kf batch).uniq) := by
  refine ⟨dedupMerge_length kf batch S, dedupMerge_sublist kf batch S,
    (dedupMerge_nodupKeys kf batch S).1, ?_, (dedupMerge_mem_keys kf batch S).2, ?_⟩
  · intro r hr
    exact (dedupMerge_nodupKeys kf batch S).2 _ (List.mem_map_of_mem _ hr)
  · intro pre r post hb hS hpre
    subst hb
    exact dedupMerge_first_wins kf pre r post S hS hpre

/-- Witness for C3 at a concrete merge. -/
theorem dedupMerge_processes_in_order_witness :
    [("kode_rup", JsVal.vStr "X")] ∈
      (dedupMerge ["Y"] ["kode_rup"] [[("kode_rup", JsVal.vStr "X")]]).uniq ∧
    (dedupMerge ["Y"] ["kode_rup"] [[("kode_rup", JsVal.vStr "X")]]).uniq.length +
      (dedupMerge ["Y"] ["kode_rup"] [[("kode_rup", JsVal.vStr "X")]]).dups = 1 := by
  refine ⟨?_, (dedupMerge_processes_in_order ["Y"] ["kode_rup"]
    [[("kode_rup", JsVal.vStr "X")]]).1⟩
  exact (dedupMerge_processes_in_order ["Y"] ["kode_rup"]
    [[("kode_rup", JsVal.vStr "X")]]).2.2.2.2.2 [] [("kode_rup", JsVal.vStr "X")] [] rfl
    (by decide) (by simp)

/-- C4: two records whose key fields are all empty are never treated as
duplicates of each other unless their full content is identical: their
fallback keys (the `__row_` content hash) differ whenever the records
differ, and merging both into an empty store keeps both. -/
theorem emptyKey_records_not_cross_dropped (kf : List String) (r1 r2 : JsRecord)
    (h1 : ∀ f ∈ kf, keyComponent r1 f = "") (h2 : ∀ f ∈ kf, keyComponent r2 f = "")
    (hne : r1 ≠ r2) :
    effectiveKey r1 kf ≠ effectiveKey r2 kf ∧
    (dedupMerge [] kf [r1, r2]).uniq = [r1, r2] ∧
    (dedupMerge [] kf [r1, r2]).dups = 0 := by
  have hk := effectiveKey_fallback_ne kf r1 r2 h1 h2 hne
  have hnm2 : effectiveKey r2 kf ∉ [effectiveKey r1 kf] := by
    simp only [List.mem_singleton]
    exact fun h => hk h.symm
  have hk2 : ¬(effectiveKey r2 kf = effectiveKey r1 kf) := fun h => hk h.symm
  have hmerge : dedupMerge [] kf [r1, r2] =
      ⟨[effectiveKey r2 kf, effectiveKey r1 kf], [r1, r2], 0⟩ := by
    simp [dedupMerge, hk2]
  exact ⟨hk, by rw [hmerge], by rw [hmerge]⟩

/-- Witness for C4 at two concrete keyless records. -/
theorem emptyKey_records_not_cross_dropped_witness :
    (dedupMerge [] ["kode_rup"]
      [[("a", JsVal.vStr "1")], [("b", JsVal.vStr "2")]]).uniq =
      [[("a", JsVal.vStr "1")], [("b", JsVal.vStr "2")]] ∧
    (dedupMerge [] ["kode_rup"]
      [[("a", JsVal.vStr "1")], [("b", JsVal.vStr "2")]]).dups = 0 := by
  have h := emptyKey_records_not_cross_dropped ["kode_rup"]
    [("a", JsVal.vStr "1")] [("b", JsVal.vStr "2")]
    (by decide) (by decide) (by decide)
  exact ⟨h.2.1, h.2.2⟩

/-- C6: in both sync variants, a sync-state update only ever happens
immediately after a successful workbook write reporting the same total,
and never without one: every trace an invocation can produce satisfies
`updFollowsWrite`.  In particular a failed write, or an invocation that
wrote nothing, leaves the sync state untouched. -/
theorem state_update_follows_durable_write (e y : String) (maxPages : Nat)
    (fetch : Nat → FetchResult) (we : Nat → Option String) (werr : Option String)
    (w : SyncWorld) :
    updFollowsWrite (syncV1 e y maxPages fetch we w).trace = true ∧
    updFollowsWrite (syncV2 e y maxPages fetch werr w).trace = true := by
  constructor
  · obtain ⟨ext, hext, hb⟩ :=
      syncLoopV1_trace e y fetch we maxPages 0 (resumeCursor w) w 0 0 []
    show updFollowsWrite (syncLoopV1 e y fetch we maxPages 0 (resumeCursor w) w 0 0 []).trace
      = true
    rw [hext, List.nil_append]
    exact updFollowsWrite_of_blocks hb
  · exact updFollowsWrite_of_blocks (syncV2_trace e y maxPages fetch werr w)

/-- C7: `fetchWithRetry` is configured with a 30-second timeout and at
most 3 retries; 2xx and 400/401/404 responses return immediately with
no delay; retriable attempts (429/500/502/503/504 or transport errors)
back off with delays `min(1000·2^n, 10000)`, concretely 1000, 2000,
4000 ms; and exhausting all four attempts propagates the last error. -/
theorem fetchWithRetry_spec (oracle : Nat → HttpAttempt) :
    RETRY_CONFIG = ⟨3, 1000, 10000, 30000⟩ ∧
    (∀ n : Nat, backoffDelay n = min (1000 * 2 ^ n) 10000) ∧
    (∀ code, ((200 ≤ code ∧ code ≤ 299) ∨ code = 400 ∨ code = 401 ∨ code = 404) →
      oracle 0 = .status code → fetchWithRetry oracle = (.resp code, [])) ∧
    (∀ k code, k ≤ 3 → (∀ i < k, retriableAttempt (oracle i) = true) →
      oracle k = .status code → isTerminalStatus code = true →
      fetchWithRetry oracle = (.resp code, (List.range k).map backoffDelay)) ∧
    ((∀ i ≤ 3, retriableAttempt (oracle i) = true) →
      fetchWithRetry oracle = (.thrown (attemptErrMsg (oracle 3)), [1000, 2000, 4000])) := by
  refine ⟨rfl, fun n => rfl, ?_, ?_, ?_⟩
  · intro code hcode h0
    have ht : isTerminalStatus code = true := by
      simp only [isTerminalStatus, resIsOk, Bool.or_eq_true, Bool.and_eq_true,
        decide_eq_true_eq, beq_iff_eq]
      rcases hcode with ⟨h1, h2⟩ | h | h | h
      · exact Or.inl (Or.inl (Or.inl ⟨by omega, by omega⟩))
      · exact Or.inl (Or.inl (Or.inr h))
      · exact Or.inl (Or.inr h)
      · exact Or.inr h
    exact fetchWithRetryAux_terminal oracle RETRY_CONFIG.maxRetries 0 code h0 ht
  · intro k code hk hret hst hterm
    have h := fetchWithRetryAux_retry oracle k RETRY_CONFIG.maxRetries 0 code hk
      (by intro i hi; simpa using hret i hi) (by simpa using hst) hterm
    rw [fetchWithRetry, h]
    congr 1
    apply List.map_congr_left
    intro i _
    rw [Nat.zero_add]
  · intro hret
    have h := fetchWithRetryAux_exhaust oracle RETRY_CONFIG.maxRetries 0
      (by intro i hi; simpa using hret i hi)
    rw [fetchWithRetry, h]
    congr 1

/-- Witness for C7: a concrete retry-then-success run and a concrete
exhaustion run. -/
theorem fetchWithRetry_spec_witness :
    fetchWithRetry (fun n => if n = 0 then .status 503
      else if n = 1 then .transport "reset"
      else if n = 2 then .status 429 else .status 200) =
      (.resp 200, [1000, 2000, 4000]) ∧
    fetchWithRetry (fun n => .transport (toString n)) = (.thrown "3", [1000, 2000, 4000]) := by
  constructor
  · have h := (fetchWithRetry_spec (fun n => if n = 0 then .status 503
      else if n = 1 then .transport "reset"
      else if n = 2 then .status 429 else .status 200)).2.2.2.1 3 200
      (by omega) (by intro i hi; interval_cases i <;> decide) (by decide) (by decide)
    rw [h]
    decide
  · have h := (fetchWithRetry_spec (fun n => HttpAttempt.transport (toString n))).2.2.2.2
      (by intro i _; rfl)
    rw [h]
    decide

/-- C5 counterexample: in the bulk-write variant, a second-page fetch
failure after a successful first page commits the fetched page but the
response carries no error (`error = none`), contradicting the claim
that the failure's error is surfaced in the response. -/
theorem syncV2_fetch_error_not_surfaced :
    (syncV2 "/v1/rup/unmapped-dataset" "2024" 10
      (fun n => if n = 0
        then .ok (.envl [[("kode_rup", JsVal.vStr "A")]] (some "c1") none)
        else .fail "boom")
      none ⟨none, none⟩).result.error = none ∧
    (syncV2 "/v1/rup/unmapped-dataset" "2024" 10
      (fun n => if n = 0
        then .ok (.envl [[("kode_rup", JsVal.vStr "A")]] (some "c1") none)
        else .fail "boom")
      none ⟨none, none⟩).result.isComplete = false ∧
    (syncV2 "/v1/rup/unmapped-dataset" "2024" 10
      (fun n => if n = 0
        then .ok (.envl [[("kode_rup", JsVal.vStr "A")]] (some "c1") none)
        else .fail "boom")
      none ⟨none, none⟩).result.totalRecords = 1 := by
  refine ⟨?_, ?_, ?_⟩ <;> decide

/-- C5 amended: when a page fetch fails after retries are exhausted,
both variants stop the paging loop at once and never discard
already-fetched pages — the per-page variant has already committed them
and surfaces the error in its response with `isComplete = false`; the
bulk variant still commits everything accumulated and reports
`isComplete = false`, but only logs the fetch error, returning
`error = none` when the commit itself succeeds. -/
theorem sync_fetch_failure_commits_fetched_pages :
    (∀ (e y : String) (maxPages k : Nat) (m : String) (fetch : Nat → FetchResult)
        (we : Nat → Option String) (w : SyncWorld),
      k < maxPages → (∀ i < k, goodV1 (fetch i) = true) → (∀ i < k, we i = none) →
      fetch k = .fail m →
      (syncV1 e y maxPages fetch we w).world = v1Iter e y fetch k 0 w ∧
      (syncV1 e y maxPages fetch we w).result.error =
        some ("Sync interrupted: " ++ m) ∧
      (syncV1 e y maxPages fetch we w).result.isComplete = false ∧
      (syncV1 e y maxPages fetch we w).fetchCalls = k + 1) ∧
    (∀ (e y : String) (maxPages k : Nat) (m : String) (fetch : Nat → FetchResult)
        (w : SyncWorld),
      1 ≤ k → k < maxPages → (∀ i < k, goodV2 (fetch i) = true) → fetch k = .fail m →
      (syncV2 e y maxPages fetch none w).world.file =
        some (appendToExcel e y w.file (v2Acc fetch 0 k)).1 ∧
      (syncV2 e y maxPages fetch none w).result.isComplete = false ∧
      (syncV2 e y maxPages fetch none w).result.error = none ∧
      (syncV2 e y maxPages fetch none w).result.success = true ∧
      (syncV2 e y maxPages fetch none w).fetchCalls = k + 1) := by
  constructor
  · intro e y maxPages k m fetch we w hk hg hwe hfail
    have h := syncLoopV1_fail e y fetch we m k maxPages 0 (resumeCursor w) w 0 0 []
      hk (by intro i hi; simpa using hg i hi) (by intro i hi; simpa using hwe i hi)
      (by simpa using hfail)
    refine ⟨h.1, h.2.1, h.2.2.1, ?_⟩
    rw [show (syncV1 e y maxPages fetch we w).fetchCalls =
      (syncLoopV1 e y fetch we maxPages 0 (resumeCursor w) w 0 0 []).fetchCalls from rfl,
      h.2.2.2]
    omega
  · intro e y maxPages k m fetch w hk1 hk hg hfail
    have hlo := syncLoopV2_fail fetch m k maxPages 0 (resumeCursor w) (resumeCursor w) []
      hk (by intro i hi; simpa using hg i hi) (by simpa using hfail)
    have hlen : (v2Acc fetch 0 k).length ≠ 0 :=
      v2Acc_len_ne fetch k hk1 (by simpa using hg 0 (by omega))
    have hcond : ¬((syncLoopV2 fetch maxPages 0 (resumeCursor w) []
        (resumeCursor w)).accumulated.length = 0) := by
      rw [hlo]
      simpa using hlen
    rcases ha : appendToExcel e y w.file (v2Acc fetch 0 k) with ⟨file', res⟩
    simp only [syncV2, hlo, List.nil_append]
    rw [if_pos hlen]
    simp only [ha]
    refine ⟨trivial, trivial, trivial, trivial, ?_⟩
    show (0 : Nat) + k + 1 = k + 1
    omega

/-- Witness for the amended C5 at a concrete one-good-page-then-failure
oracle, for both variants. -/
theorem sync_fetch_failure_commits_fetched_pages_witness :
    (syncV1 "/v1/rup/unmapped-dataset" "2024" 10
      (fun n => if n = 0
        then .ok (.envl [[("kode_rup", JsVal.vStr "A")]] (some "c1") none)
        else .fail "boom")
      (fun _ => none) ⟨none, none⟩).result.error = some "Sync interrupted: boom" ∧
    (syncV2 "/v1/rup/unmapped-dataset" "2024" 10
      (fun n => if n = 0
        then .ok (.envl [[("kode_rup", JsVal.vStr "A")]] (some "c1") none)
        else .fail "boom")
      none ⟨none, none⟩).result.error = none := by
  constructor
  · have h := sync_fetch_failure_commits_fetched_pages.1 "/v1/rup/unmapped-dataset" "2024"
      10 1 "boom"
      (fun n => if n = 0
        then .ok (.envl [[("kode_rup", JsVal.vStr "A")]] (some "c1") none)
        else .fail "boom")
      (fun _ => none) ⟨none, none⟩ (by omega)
      (by intro i hi; interval_cases i; decide)
      (by intro i hi; rfl) (by decide)
    exact h.2.1
  · have h := sync_fetch_failure_commits_fetched_pages.2 "/v1/rup/unmapped-dataset" "2024"
      10 1 "boom"
      (fun n => if n = 0
        then .ok (.envl [[("kode_rup", JsVal.vStr "A")]] (some "c1") none)
        else .fail "boom")
      ⟨none, none⟩ (by omega) (by omega)
      (by intro i hi; interval_cases i; decide) (by decide)
    exact h.2.2.1

/-- C9 counterexample: in the bulk-write variant, an empty page that
arrives after a non-empty page stops the loop but leaves
`isComplete = false`, contradicting the claim that any empty page marks
the sync complete. -/
theorem syncV2_later_empty_page_not_complete :
    (syncV2 "/v1/rup/unmapped-dataset" "2024" 10
      (fun n => if n = 0
        then .ok (.envl [[("kode_rup", JsVal.vStr "A")]] (some "c1") none)
        else .ok (.envl [] none none))
      none ⟨none, none⟩).result.isComplete = false := by decide

/-- C9 amended: an empty page always stops the paging loop immediately
in both variants.  The per-page variant then reports
`isComplete = true` whatever the page index; the bulk variant reports
`isComplete = true` only when the empty page is the invocation's first
fetch, and `isComplete = false` when data had already been accumulated. -/
theorem empty_page_stops_loop :
    (∀ (e y : String) (maxPages k : Nat) (resp : ApiResponse)
        (fetch : Nat → FetchResult) (we : Nat → Option String) (w : SyncWorld),
      k < maxPages → (∀ i < k, goodV1 (fetch i) = true) → (∀ i < k, we i = none) →
      fetch k = .ok resp → dataV1 resp = [] →
      (syncV1 e y maxPages fetch we w).result.isComplete = true ∧
      (syncV1 e y maxPages fetch we w).fetchCalls = k + 1) ∧
    (∀ (e y : String) (maxPages : Nat) (resp : ApiResponse)
        (fetch : Nat → FetchResult) (werr : Option String) (w : SyncWorld),
      0 < maxPages → fetch 0 = .ok resp → (normalizeV2 resp).1 = [] →
      (syncV2 e y maxPages fetch werr w).result.isComplete = true ∧
      (syncV2 e y maxPages fetch werr w).fetchCalls = 1) ∧
    (∀ (e y : String) (maxPages k : Nat) (resp : ApiResponse)
        (fetch : Nat → FetchResult) (w : SyncWorld),
      1 ≤ k → k < maxPages → (∀ i < k, goodV2 (fetch i) = true) →
      fetch k = .ok resp → (normalizeV2 resp).1 = [] →
      (syncV2 e y maxPages fetch none w).result.isComplete = false ∧
      (syncV2 e y maxPages fetch none w).fetchCalls = k + 1) := by
  refine ⟨?_, ?_, ?_⟩
  · intro e y maxPages k resp fetch we w hk hg hwe hok hempty
    have h := syncLoopV1_empty e y fetch we resp k maxPages 0 (resumeCursor w) w 0 0 []
      hk (by intro i hi; simpa using hg i hi) (by intro i hi; simpa using hwe i hi)
      (by simpa using hok) hempty
    refine ⟨h.2.1, ?_⟩
    rw [show (syncV1 e y maxPages fetch we w).fetchCalls =
      (syncLoopV1 e y fetch we maxPages 0 (resumeCursor w) w 0 0 []).fetchCalls from rfl,
      h.2.2]
    omega
  · intro e y maxPages resp fetch werr w hmp hok hempty
    have hlo := syncLoopV2_empty fetch resp 0 maxPages 0 (resumeCursor w)
      (resumeCursor w) [] (by omega) (by intro i hi; omega) (by simpa using hok) hempty
    simp only [syncV2, hlo, v2Acc, List.append_nil]
    refine ⟨rfl, rfl⟩
  · intro e y maxPages k resp fetch w hk1 hk hg hok hempty
    have hlo := syncLoopV2_empty fetch resp k maxPages 0 (resumeCursor w)
      (resumeCursor w) [] hk (by intro i hi; simpa using hg i hi)
      (by simpa using hok) hempty
    have hlen : (v2Acc fetch 0 k).length ≠ 0 :=
      v2Acc_len_ne fetch k hk1 (by simpa using hg 0 (by omega))
    rcases ha : appendToExcel e y w.file (v2Acc fetch 0 k) with ⟨file', res⟩
    simp only [syncV2, hlo, List.nil_append]
    rw [if_pos hlen]
    simp only [ha]
    have hic : (decide (0 + k = 0) && decide ((v2Acc fetch 0 k).length = 0)) = false := by
      have h0 : decide (0 + k = 0) = false := decide_eq_false (by omega)
      rw [h0, Bool.false_and]
    refine ⟨?_, ?_⟩
    · show (decide (0 + k = 0) && decide ((v2Acc fetch 0 k).length = 0)) = false
      exact hic
    · show (0 : Nat) + k + 1 = k + 1
      omega

theorem empty_page_stops_loop_witness :
    (syncV1 "/v1/rup/unmapped-dataset" "2024" 10
      (fun n => if n = 0
        then .ok (.envl [[("kode_rup", JsVal.vStr "A")]] (some "c1") none)
        else .ok (.envl [] none none))
      (fun _ => none) ⟨none, none⟩).result.isComplete = true ∧
    (syncV2 "/v1/rup/unmapped-dataset" "2024" 10
      (fun _ => .ok (.envl [] none none))
      none ⟨none, none⟩).result.isComplete = true ∧
    (syncV2 "/v1/rup/unmapped-dataset" "2024" 10
      (fun n => if n = 0
        then .ok (.envl [[("kode_rup", JsVal.vStr "A")]] (some "c1") none)
        else .ok (.envl [] none none))
      none ⟨none, none⟩).result.isComplete = false := by
  refine ⟨?_, ?_, ?_⟩
  · have h := empty_page_stops_loop.1 "/v1/rup/unmapped-dataset" "2024"
      10 1 (.envl [] none none)
      (fun n => if n = 0
        then .ok (.envl [[("kode_rup", JsVal.vStr "A")]] (some "c1") none)
        else .ok (.envl [] none none))
      (fun _ => none) ⟨none, none⟩ (by omega)
      (by intro i hi; interval_cases i; decide)
      (by intro i hi; rfl) (by decide) (by decide)
    exact h.1
  · have h := empty_page_stops_loop.2.1 "/v1/rup/unmapped-dataset" "2024"
      10 (.envl [] none none)
      (fun _ => .ok (.envl [] none none))
      none ⟨none, none⟩ (by omega) (by decide) (by decide)
    exact h.1
  · have h := empty_page_stops_loop.2.2 "/v1/rup/unmapped-dataset" "2024"
      10 1 (.envl [] none none)
      (fun n => if n = 0
        then .ok (.envl [[("kode_rup", JsVal.vStr "A")]] (some "c1") none)
        else .ok (.envl [] none none))
      ⟨none, none⟩ (by omega) (by omega)
      (by intro i hi; interval_cases i; decide)
      (by decide) (by decide)
    exact h.1

theorem verifyYear_year (vf : Bool) (fi : FileInfo) (y : String)
    (st : EndpointSyncState) (ys : YearStatus)
    (h : verifyYear vf fi y st = some ys) : ys.year = y := by
  unfold verifyYear at h
  split at h
  · exact absurd h (by simp)
  · rw [← Option.some_inj.mp h]

/-- C8: processing the stored (year, state) entries of an endpoint with
`verify = true`: an entry claiming a non-zero `totalRecords` whose
backing file is missing is reset — its year is reported in the reset
list and no returned entry carries that year; an entry whose file
exists is returned with `totalRecords` overridden by the file's actual
record count. -/
theorem statusForEndpoint_verify_spec
    (fileOf : String → Option ExcelFile)
    (entries : List (String × EndpointSyncState))
    (y : String) (st : EndpointSyncState)
    (hnd : (entries.map Prod.fst).Nodup)
    (hmem : (y, st) ∈ entries) :
    (st.totalRecords ≠ 0 → (getFileInfo (fileOf y)).fileExists = false →
      y ∈ (statusForEndpoint true fileOf entries).2 ∧
      ∀ ys ∈ (statusForEndpoint true fileOf entries).1, ys.year ≠ y) ∧
    ((getFileInfo (fileOf y)).fileExists = true →
      (⟨y, { st with totalRecords := (getFileInfo (fileOf y)).recordCount },
        true⟩ : YearStatus) ∈ (statusForEndpoint true fileOf entries).1) := by
  constructor
  · intro htr hnf
    have hvy : verifyYear true (getFileInfo (fileOf y)) y st = none := by
      unfold verifyYear
      rw [if_pos]
      simp [htr, hnf]
    constructor
    · show y ∈ ((entries.map (fun e =>
          (e.1, verifyYear true (getFileInfo (fileOf e.1)) e.1 e.2))).filter
          (fun e => e.2.isNone)).map (fun e => e.1)
      refine List.mem_map.mpr
        ⟨(y, verifyYear true (getFileInfo (fileOf y)) y st),
         List.mem_filter.mpr ⟨List.mem_map.mpr ⟨(y, st), hmem, rfl⟩, ?_⟩, rfl⟩
      rw [hvy]
      rfl
    · intro ys hys hyeq
      have hys' : ys ∈ (entries.map (fun e =>
          (e.1, verifyYear true (getFileInfo (fileOf e.1)) e.1 e.2))).filterMap
          (fun e => e.2) := hys
      rw [List.mem_filterMap] at hys'
      obtain ⟨e, hemem, hsome⟩ := hys'
      rw [List.mem_map] at hemem
      obtain ⟨a, hamem, hae⟩ := hemem
      subst hae
      change verifyYear true (getFileInfo (fileOf a.1)) a.1 a.2 = some ys at hsome
      have hyear : ys.year = a.1 := verifyYear_year _ _ _ _ _ hsome
      have ha1 : a.1 = y := hyear.symm.trans hyeq
      have ha' : (y, a.2) ∈ entries := by
        rw [← ha1]
        exact hamem
      have hstq : st = a.2 := assoc_nodup_unique entries y st a.2 hnd hmem ha'
      rw [ha1, ← hstq, hvy] at hsome
      exact Option.noConfusion hsome
  · intro hfe
    show (⟨y, { st with totalRecords := (getFileInfo (fileOf y)).recordCount },
        true⟩ : YearStatus) ∈ (entries.map (fun e =>
          (e.1, verifyYear true (getFileInfo (fileOf e.1)) e.1 e.2))).filterMap
          (fun e => e.2)
    refine List.mem_filterMap.mpr
      ⟨(y, verifyYear true (getFileInfo (fileOf y)) y st),
       List.mem_map.mpr ⟨(y, st), hmem, rfl⟩, ?_⟩
    show verifyYear true (getFileInfo (fileOf y)) y st =
      some ⟨y, { st with totalRecords := (getFileInfo (fileOf y)).recordCount }, true⟩
    unfold verifyYear
    rw [if_neg (by simp [hfe])]
    rw [hfe]
    rfl

theorem statusForEndpoint_verify_spec_witness :
    "2023" ∈ (statusForEndpoint true
      (fun ys => if ys = "2024"
        then some ⟨[[("kode_rup", JsVal.vStr "A")]], "e", "2024", ["kode_rup"], 1⟩
        else none)
      [("2023", ⟨some "c0", 5⟩), ("2024", ⟨none, 7⟩)]).2 ∧
    (⟨"2024", ⟨none, 1⟩, true⟩ : YearStatus) ∈ (statusForEndpoint true
      (fun ys => if ys = "2024"
        then some ⟨[[("kode_rup", JsVal.vStr "A")]], "e", "2024", ["kode_rup"], 1⟩
        else none)
      [("2023", ⟨some "c0", 5⟩), ("2024", ⟨none, 7⟩)]).1 := by
  constructor
  · have h := (statusForEndpoint_verify_spec
      (fun ys => if ys = "2024"
        then some ⟨[[("kode_rup", JsVal.vStr "A")]], "e", "2024", ["kode_rup"], 1⟩
        else none)
      [("2023", ⟨some "c0", 5⟩), ("2024", ⟨none, 7⟩)]
      "2023" ⟨some "c0", 5⟩ (by decide) (by decide)).1 (by decide) (by decide)
    exact h.1
  · have h := (statusForEndpoint_verify_spec
      (fun ys => if ys = "2024"
        then some ⟨[[("kode_rup", JsVal.vStr "A")]], "e", "2024", ["kode_rup"], 1⟩
        else none)
      [("2023", ⟨some "c0", 5⟩), ("2024", ⟨none, 7⟩)]
      "2024" ⟨none, 7⟩ (by decide) (by decide)).2 (by decide)
    exact h

/-- C10 counterexample: with key fields `kode_rup, kd_paket`, the
record `\x7bkode_rup: "|"\x7d` has a non-empty key component, and adding a
falsy `kd_paket: 0` leaves the generated key unchanged — yet the later
record is NOT dropped: the joined key `||` splits into all-empty
pieces, so both records take the content fallback key and both are
kept. -/
theorem pipe_component_defeats_falsy_dedup :
    keyComponent [("kode_rup", JsVal.vStr "|")] "kode_rup" ≠ "" ∧
    generateRecordKey [("kode_rup", JsVal.vStr "|")] ["kode_rup", "kd_paket"] =
      generateRecordKey [("kode_rup", JsVal.vStr "|"), ("kd_paket", JsVal.vNum 0)]
        ["kode_rup", "kd_paket"] ∧
    (dedupMerge [] ["kode_rup", "kd_paket"]
      [[("kode_rup", JsVal.vStr "|")],
       [("kode_rup", JsVal.vStr "|"), ("kd_paket", JsVal.vNum 0)]]).dups = 0 ∧
    (dedupMerge [] ["kode_rup", "kd_paket"]
      [[("kode_rup", JsVal.vStr "|")],
       [("kode_rup", JsVal.vStr "|"), ("kd_paket", JsVal.vNum 0)]]).uniq =
      [[("kode_rup", JsVal.vStr "|")],
       [("kode_rup", JsVal.vStr "|"), ("kd_paket", JsVal.vNum 0)]] := by decide

/-- C10 amended: a falsy key-field value (missing, null, empty string,
0, or false) contributes the empty string to the record key, and two
records whose key fields agree or are both falsy receive identical
keys; the later record is then dropped as a duplicate provided the
joined key does not split into all-empty pieces (a stronger proviso
than one non-empty component: a component consisting only of pipes is
non-empty yet still yields an all-empty split, triggering the content
fallback instead). -/
theorem falsy_key_fields_cause_duplicate_drop :
    (∀ (r : JsRecord) (f : String),
      jsTruthyOpt (jsLookup r f) = false → keyComponent r f = "") ∧
    (∀ (kf : List String) (r1 r2 : JsRecord) (S : List String),
      (∀ f ∈ kf, keyComponent r1 f = keyComponent r2 f ∨
        (jsTruthyOpt (jsLookup r1 f) = false ∧
         jsTruthyOpt (jsLookup r2 f) = false)) →
      (jsSplitPipe (generateRecordKey r1 kf)).all (fun k => k = "") = false →
      effectiveKey r1 kf ∉ S →
      generateRecordKey r1 kf = generateRecordKey r2 kf ∧
      (dedupMerge S kf [r1, r2]).uniq = [r1] ∧
      (dedupMerge S kf [r1, r2]).dups = 1) := by
  have hcomp0 : ∀ (r : JsRecord) (f : String),
      jsTruthyOpt (jsLookup r f) = false → keyComponent r f = "" := by
    intro r f h
    unfold jsTruthyOpt at h
    unfold keyComponent
    cases hl : jsLookup r f with
    | none => rfl
    | some v =>
      rw [hl] at h
      simp only [] at h
      simp [h]
  refine ⟨hcomp0, ?_⟩
  intro kf r1 r2 S hagree hall hS
  have hcomps : ∀ f ∈ kf, keyComponent r1 f = keyComponent r2 f := by
    intro f hf
    rcases hagree f hf with h | ⟨h1, h2⟩
    · exact h
    · rw [hcomp0 r1 f h1, hcomp0 r2 f h2]
  have hkeq : generateRecordKey r1 kf = generateRecordKey r2 kf := by
    unfold generateRecordKey
    exact congrArg jsJoinPipe (List.map_congr_left hcomps)
  have hnd : ¬(generateRecordKey r1 kf = "" ∨
      (jsSplitPipe (generateRecordKey r1 kf)).all (fun k => k = "")) := by
    rintro (h | h)
    · rw [h, splitPipe_empty_all] at hall
      exact Bool.noConfusion hall
    · rw [h] at hall
      exact Bool.noConfusion hall
  have he1 : effectiveKey r1 kf = generateRecordKey r1 kf :=
    effectiveKey_of_nonempty _ _ hnd
  have hnd2 : ¬(generateRecordKey r2 kf = "" ∨
      (jsSplitPipe (generateRecordKey r2 kf)).all (fun k => k = "")) := by
    rw [← hkeq]
    exact hnd
  have he2 : effectiveKey r2 kf = generateRecordKey r2 kf :=
    effectiveKey_of_nonempty _ _ hnd2
  have hee : effectiveKey r2 kf ∈ effectiveKey r1 kf :: S := by
    rw [he1, he2, hkeq]
    exact List.mem_cons_self _ _
  refine ⟨hkeq, ?_, ?_⟩
  · show (dedupMerge S kf [r1, r2]).uniq = [r1]
    simp only [dedupMerge]
    rw [if_neg hS, if_pos hee]
  · show (dedupMerge S kf [r1, r2]).dups = 1
    simp only [dedupMerge]
    rw [if_neg hS, if_pos hee]

theorem falsy_key_fields_cause_duplicate_drop_witness :
    (dedupMerge [] ["kode_rup", "kd_paket"]
      [[("kode_rup", JsVal.vStr "X")],
       [("kode_rup", JsVal.vStr "X"), ("kd_paket", JsVal.vNum 0)]]).uniq =
      [[("kode_rup", JsVal.vStr "X")]] ∧
    (dedupMerge [] ["kode_rup", "kd_paket"]
      [[("kode_rup", JsVal.vStr "X")],
       [("kode_rup", JsVal.vStr "X"), ("kd_paket", JsVal.vNum 0)]]).dups = 1 := by
  have h := falsy_key_fields_cause_duplicate_drop.2 ["kode_rup", "kd_paket"]
    [("kode_rup", JsVal.vStr "X")]
    [("kode_rup", JsVal.vStr "X"), ("kd_paket", JsVal.vNum 0)] []
    (by decide) (by decide) (by decide)
  exact ⟨h.2.1, h.2.2⟩
